import Mathlib

/-!
Verification development for the `boi.py` tree-walking evaluator
(file `src/boi.py`).

Shallow embedding notes:

* Python floats are modelled as exact rationals (`ℚ`).  Every numeric
  computation appearing in the properties below is exact (small integers
  and one decimal literal), so the IEEE-754/ℚ distinction is immaterial
  for the statements proved here.
* A Python `Function` object is mutable state (its `argv` slot is written
  by `set_args` and cleared inside `Function.eval`).  We therefore model
  the heap of `Function` objects explicitly: a store `List FunctionObj`
  indexed by position, threaded through evaluation.  Stack frames map
  `(name, arity)` keys to store indices, exactly as the Python frames map
  those keys to object references.
* Python dictionaries are modelled as association lists (insertion at the
  head); the source only uses membership test, lookup, insertion of an
  absent key and removal, so the representation is faithful.
* The frame stack `Context.stack_frames` is kept top-first (the source
  appends the top frame at the end of a Python list; we keep it at the
  head of a Lean list, which reverses the indexing but nothing else).
* Python exceptions propagate without undoing prior mutations, so the
  evaluator returns the (possibly mutated) state alongside the outcome.
* Evaluation is indexed by fuel; exhausting fuel yields the distinguished
  outcome `timeout`, distinct from every error of the source program.
-/

/-- Source span; `boi.py` class `Span` (fields `start`, `end`, `slice`;
`end` is a Lean keyword so the field is named `stop`). -/
structure Span where
  start : Nat
  stop : Nat
  slice : String
deriving DecidableEq, Repr

/-- The process-wide empty span `Span.EMPTY = Span(0, 0, "")`. -/
def Span.EMPTY : Span := ⟨0, 0, ""⟩

/-- A variable reference; `boi.py` class `Var` (`name`, `span`). -/
structure Var where
  name : String
  span : Span
deriving DecidableEq, Repr

/-- A runtime numeric value; `boi.py` class `Value` (`value`, `span`).
The Python float is modelled as an exact rational. -/
structure Value where
  value : ℚ
  span : Span
deriving DecidableEq, Repr

/-- Result of evaluating an expression.  In the source, `eval` returns
either a `Value` object or a raw Python `bool` (from `ComparisonExpr`
and `ConditionExpr`); this sum reflects that dynamic typing. -/
inductive RVal where
  | num (v : Value)
  | bool (b : Bool)
deriving DecidableEq, Repr

/-- Operator tag of `AdditiveExpr` (`ADDITION = 0`, `SUBTRACTION = 1`). -/
inductive AddOp where
  | addition
  | subtraction
deriving DecidableEq, Repr

/-- Operator tag of `ComparisonExpr` (`GT .. NEQ`). -/
inductive CmpOp where
  | gt
  | gte
  | lt
  | lte
  | eq
  | neq
deriving DecidableEq, Repr

/-- Comparison dispatch table `ComparisonExpr.COMPARISON_FNS`, acting on
the operands' underlying numbers (the `Value` dunder methods compare
`self.value` with `other.value`). -/
def CmpOp.apply : CmpOp → ℚ → ℚ → Bool
  | .gt, l, r => decide (l > r)
  | .gte, l, r => decide (l ≥ r)
  | .lt, l, r => decide (l < r)
  | .lte, l, r => decide (l ≤ r)
  | .eq, l, r => decide (l = r)
  | .neq, l, r => decide (l ≠ r)

/-- Abstract syntax of expressions.  Each constructor is one `Expr`
subclass of `boi.py`.  A `LambdaExpr` node carries the store index of
the `Function` object it constructed once at `__init__` time (`as_fn`);
the function's own data (`name`, `args`, `value`, `is_lambda = true`)
lives in that store entry. -/
inductive Expr where
  | value (v : Value)
  | var (v : Var)
  | additive (lhs : Expr) (op : AddOp) (rhs : Expr) (span : Span)
  | comparison (lhs : Expr) (op : CmpOp) (rhs : Expr) (span : Span)
  | condition (inner : Expr) (span : Span)
  | letE (name : Var) (value : Expr) (body : Expr) (span : Span)
  | lambdaE (asFn : Nat) (body : Expr) (span : Span)
  | fcall (name : Var) (argv : List Expr) (span : Span)
  | ifE (condition : Expr) (trueExpr : Expr) (falseExpr : Expr) (span : Span)
deriving Repr

/-- A `Function` AST node / heap object; `boi.py` class `Function`.
`argv` is the mutable pending-argument slot (`self.argv`, `None` when
the function is not armed). -/
structure FunctionObj where
  name : Var
  args : List Var
  body : Expr
  span : Span
  is_lambda : Bool
  argv : Option (List RVal)
deriving Repr

/-- Errors.  The source raises `InterpreterException(reason, span)` for
user-level errors, `TypeError` in `Program.run`, a plain `Exception` in
`set_args`, and `AssertionError`/`IndexError`/attribute errors at the
host level.  Host-level failures that the source does not distinguish
(mixed-type arithmetic, dangling references) are lumped into
`hostError`. -/
inductive Err where
  | interp (reason : String) (span : Span)
  | typeError (msg : String)
  | exn (msg : String)
  | assertFail
  | indexError
  | hostError
deriving DecidableEq, Repr

/-- An apostrophe character, used inside diagnostic message strings. -/
def apos : String := String.singleton (Char.ofNat 39)

/-- Message of `Context.push_var` on rebinding a name already present. -/
def shadowMsg : String := "name shadowing is not supported"

/-- Message of `Context.pop_var` on a missing name (source text contains
an apostrophe in `hasn't`). -/
def popVarMsg : String :=
  "tried to pop var which hasn" ++ apos ++
    "t been added to the current stack frame"

/-- Message of `Context.push_function` on a duplicate `(name, arity)`. -/
def pushFnMsg (nm : String) (argn : Nat) : String :=
  "function " ++ apos ++ nm ++ apos ++ " with " ++ toString argn ++
    " arguments is already defined, and name shadowing is not supported"

/-- Message of `Context.pop_function` on a missing `(name, arity)` pair
(the source text reads `tried top pop`, typo preserved). -/
def popFnMsg (nm : String) (argn : Nat) : String :=
  "tried top pop function " ++ apos ++ nm ++ apos ++ " with " ++
    toString argn ++
    " arguments which hasn" ++ apos ++ "t been added to the current stack frame"

/-- Message of `Context.get_function` when lookup exhausts the stack. -/
def noSuchFnMsg (nm : String) (argn : Nat) : String :=
  "no such function " ++ apos ++ nm ++ apos ++ " with " ++ toString argn ++
    " arguments"

/-- Message of `Context.get_var` when lookup exhausts the stack. -/
def noVarMsg (nm : String) : String :=
  "no variable with name " ++ apos ++ nm ++ apos

/-- Message of `Function.set_args` on an argument-count mismatch. -/
def arityMsg : String :=
  "Interpreter Error: Calling function with wrong number of arguments."

/-- Message of the `TypeError` raised by `Program.run`. -/
def malformedMsg : String := "Expected Function or Expr"

section AssocList

variable {α : Type} {β : Type} [DecidableEq α]

/-- First-match association-list lookup (Python `k in d` / `d[k]`). -/
def alookup : List (α × β) → α → Option β
  | [], _ => none
  | (k, v) :: t, k' => if k = k' then some v else alookup t k'

/-- Remove the first entry with the given key (Python `d.pop(k)`; the
source only pops keys it has just found, and the association lists built
by the evaluator never hold duplicate keys). -/
def aerase : List (α × β) → α → List (α × β)
  | [], _ => []
  | (k, v) :: t, k' => if k = k' then t else (k, v) :: aerase t k'

theorem alookup_cons_self (k : α) (v : β) (t : List (α × β)) :
    alookup ((k, v) :: t) k = some v := by
  simp [alookup]

theorem aerase_cons_self (k : α) (v : β) (t : List (α × β)) :
    aerase ((k, v) :: t) k = t := by
  simp [aerase]

theorem alookup_cons_ne (k k' : α) (v : β) (t : List (α × β)) (h : k ≠ k') :
    alookup ((k, v) :: t) k' = alookup t k' := by
  simp [alookup, h]

theorem alookup_aerase_ne (L : List (α × β)) (k k' : α) (h : k' ≠ k) :
    alookup (aerase L k) k' = alookup L k' := by
  induction L with
  | nil => rfl
  | cons p t ih =>
    obtain ⟨pk, pv⟩ := p
    by_cases hk : pk = k
    · subst hk
      have h2 : pk ≠ k' := Ne.symm h
      simp [aerase, alookup, h2]
    · by_cases hk' : pk = k'
      · subst hk'
        simp [aerase, alookup, hk]
      · simp [aerase, alookup, hk, hk', ih]

theorem aerase_comm (L : List (α × β)) (k k' : α) :
    aerase (aerase L k) k' = aerase (aerase L k') k := by
  by_cases hkk : k = k'
  · subst hkk; rfl
  · induction L with
    | nil => rfl
    | cons p t ih =>
      obtain ⟨pk, pv⟩ := p
      by_cases hk : pk = k
      · subst hk
        have h2 : pk ≠ k' := hkk
        simp [aerase, h2]
      · by_cases hk' : pk = k'
        · subst hk'
          simp [aerase, hk]
        · simp [aerase, hk, hk', ih]

end AssocList

/-- One stack frame.  The source uses a single Python dict whose keys are
either strings (variables) or `(name, arity)` tuples (functions); the
two key types never collide, so we keep two association lists.
Function entries hold store indices (the Python dict holds object
references). -/
structure Frame where
  vars : List (String × RVal)
  funcs : List ((String × Nat) × Nat)
deriving Repr

/-- The scoped environment; `boi.py` class `Context`.  Frames are stored
top-first (see the module comment). -/
structure Context where
  stack_frames : List Frame
deriving Repr

/-- A fresh context: one empty base frame (`Context.__init__`). -/
def Context.init : Context := ⟨[⟨[], []⟩]⟩

/-- `Context.push_stack_frame`. -/
def Context.pushStackFrame (c : Context) : Context :=
  ⟨⟨[], []⟩ :: c.stack_frames⟩

/-- `Context.pop_stack_frame` (Python `list.pop`, `IndexError` when
empty; the popped frame is discarded by every caller). -/
def Context.popStackFrame (c : Context) : Except Err Context :=
  match c.stack_frames with
  | [] => .error .indexError
  | _ :: t => .ok ⟨t⟩

/-- `Context.push_var`: bind a variable in the current frame; raises the
shadowing `InterpreterException` (with no span, hence `Span.EMPTY`) when
the name is already present.  The membership test precedes the
assignment, so a failed push leaves the frame untouched.  An empty frame
stack fails the `assert` in `current_stack_frame`. -/
def Context.pushVar (c : Context) (v : Var) (val : RVal) : Except Err Context :=
  match c.stack_frames with
  | [] => .error .assertFail
  | sf :: rest =>
    if (alookup sf.vars v.name).isSome then
      .error (.interp shadowMsg Span.EMPTY)
    else
      .ok ⟨{ sf with vars := (v.name, val) :: sf.vars } :: rest⟩

/-- `Context.pop_var`: remove a variable from the current frame; raises
an `InterpreterException` carrying the variable's span when absent. -/
def Context.popVar (c : Context) (v : Var) : Except Err Context :=
  match c.stack_frames with
  | [] => .error .assertFail
  | sf :: rest =>
    if (alookup sf.vars v.name).isSome then
      .ok ⟨{ sf with vars := aerase sf.vars v.name } :: rest⟩
    else
      .error (.interp popVarMsg v.span)

/-- `Context.push_function`: register a function under
`(name, len(args))` in the current frame; duplicate registration raises
the shadowing `InterpreterException` carrying the function's span. -/
def Context.pushFunction (c : Context) (fid : Nat) (fn : FunctionObj) :
    Except Err Context :=
  match c.stack_frames with
  | [] => .error .assertFail
  | sf :: rest =>
    if (alookup sf.funcs (fn.name.name, fn.args.length)).isSome then
      .error (.interp (pushFnMsg fn.name.name fn.args.length) fn.span)
    else
      .ok ⟨{ sf with funcs := ((fn.name.name, fn.args.length), fid) :: sf.funcs } :: rest⟩

/-- `Context.pop_function`: remove a `(name, arity)` registration from
the current frame. -/
def Context.popFunction (c : Context) (fn : FunctionObj) : Except Err Context :=
  match c.stack_frames with
  | [] => .error .assertFail
  | sf :: rest =>
    if (alookup sf.funcs (fn.name.name, fn.args.length)).isSome then
      .ok ⟨{ sf with funcs := aerase sf.funcs (fn.name.name, fn.args.length) } :: rest⟩
    else
      .error (.interp (popFnMsg fn.name.name fn.args.length) fn.span)

/-- Walk the frame stack top-down looking for a variable.  The source's
loop starts at `current_stack_frame()` and then indexes `frames[-1]`,
`frames[-2]`, … — it scans the top frame twice, which does not change
the result; this definition performs the equivalent single scan. -/
def findVar : List Frame → String → Option RVal
  | [], _ => none
  | f :: rest, nm =>
    match alookup f.vars nm with
    | some x => some x
    | none => findVar rest nm

/-- Walk the frame stack top-down looking for a `(name, arity)` pair. -/
def findFunction : List Frame → String × Nat → Option Nat
  | [], _ => none
  | f :: rest, key =>
    match alookup f.funcs key with
    | some x => some x
    | none => findFunction rest key

/-- `Context.get_var`: downward (dynamic-scope) variable lookup; raises
`InterpreterException` with the variable's span when no frame matches.
An empty frame stack fails the `assert` in `current_stack_frame`. -/
def Context.getVar (c : Context) (v : Var) : Except Err RVal :=
  match c.stack_frames with
  | [] => .error .assertFail
  | _ :: _ =>
    match findVar c.stack_frames v.name with
    | some x => .ok x
    | none => .error (.interp (noVarMsg v.name) v.span)

/-- `Context.get_function`: downward `(name, arity)` lookup returning
the store index of the function object. -/
def Context.getFunction (c : Context) (v : Var) (argn : Nat) : Except Err Nat :=
  match c.stack_frames with
  | [] => .error .assertFail
  | _ :: _ =>
    match findFunction c.stack_frames (v.name, argn) with
    | some x => .ok x
    | none => .error (.interp (noSuchFnMsg v.name argn) v.span)

/-- `Context.push_args` body: `zip` the parameter list with the value
list and `push_var` each pair in order.  An exception mid-loop leaves
the earlier bindings in place, so the partially-updated context is
returned alongside the error. -/
def Context.pushArgsAux : Context → List Var → List RVal → Context × Option Err
  | c, [], _ => (c, none)
  | c, _ :: _, [] => (c, none)
  | c, a :: as, v :: vs =>
    match c.pushVar a v with
    | .error e => (c, some e)
    | .ok c' => Context.pushArgsAux c' as vs

/-- `Context.push_args`: assert equal lengths, then bind pairwise. -/
def Context.pushArgs (c : Context) (args : List Var) (vals : List RVal) :
    Context × Option Err :=
  if args.length = vals.length then Context.pushArgsAux c args vals
  else (c, some .assertFail)

/-- `Context.pop_args`: `pop_var` each parameter in order (the list of
popped values built by the source is discarded by its caller). -/
def Context.popArgsAux : Context → List Var → Context × Option Err
  | c, [] => (c, none)
  | c, a :: as =>
    match c.popVar a with
    | .error e => (c, some e)
    | .ok c' => Context.popArgsAux c' as

/-- Falsy set of `ConditionExpr` (`FALSE_VALUES = [0.0, "", []]`): the
evaluated value's number (a float) is compared by Python `==` with each
member; a float never equals `""` or `[]`, so only `0.0` remains. -/
def ConditionExpr.falseValues : List ℚ := [0]

/-- Python truthiness of an evaluation result, as used by `IfExpr`'s
`if self.condition.eval(context):` — a raw bool is itself, a `Value`
object (which defines neither `__bool__` nor `__len__`) is truthy. -/
def RVal.truthy : RVal → Bool
  | .num _ => true
  | .bool b => b

/-- Interpreter state: the context plus the heap of `Function` objects. -/
structure EvalState where
  ctx : Context
  store : List FunctionObj
deriving Repr

/-- Evaluation outcome: a result, a raised exception, or fuel
exhaustion (`timeout` is an artifact of the fuel-indexed embedding, not
a behavior of the source). -/
inductive Outcome where
  | ok (v : RVal)
  | err (e : Err)
  | timeout
deriving Repr

/-- Outcome of evaluating a list of argument expressions. -/
inductive OutcomeL where
  | ok (vs : List RVal)
  | err (e : Err)
  | timeout
deriving Repr

/-- `Function.set_args`: check the count against the declared parameter
list (raising the plain-`Exception` arity message) and store the values
in the pending-argument slot of the function object. -/
def setArgs (s : EvalState) (fid : Nat) (vs : List RVal) :
    Except Err EvalState :=
  match s.store[fid]? with
  | none => .error .hostError
  | some fn =>
    if vs.length = fn.args.length then
      .ok { s with store := s.store.set fid { fn with argv := some vs } }
    else
      .error (.exn arityMsg)

/-- `self.argv = None` inside `Function.eval`. -/
def clearArgv (s : EvalState) (fid : Nat) : EvalState :=
  match s.store[fid]? with
  | none => s
  | some fn => { s with store := s.store.set fid { fn with argv := none } }

/-- Evaluate argument expressions left to right
(`list(map(lambda exp: exp.eval(context), self.argv))`), threading the
state and propagating the first exception. -/
def evalArgsWith (ev : Expr → EvalState → EvalState × Outcome) :
    List Expr → EvalState → EvalState × OutcomeL
  | [], s => (s, .ok [])
  | e :: es, s =>
    match ev e s with
    | (s₁, .ok v) =>
      match evalArgsWith ev es s₁ with
      | (s₂, .ok vs) => (s₂, .ok (v :: vs))
      | (s₂, .err er) => (s₂, .err er)
      | (s₂, .timeout) => (s₂, .timeout)
    | (s₁, .err er) => (s₁, .err er)
    | (s₁, .timeout) => (s₁, .timeout)

/-- `Function.eval`: assert the pending-argument slot is armed; push a
fresh frame unless the function is a lambda; bind the parameters; run
the body; clear the slot; unbind the parameters; pop the frame (non-
lambda).  A raised exception propagates immediately, skipping every
later step (the source has no `finally`). -/
def fnEvalWith (ev : Expr → EvalState → EvalState × Outcome)
    (fid : Nat) (s : EvalState) : EvalState × Outcome :=
  match s.store[fid]? with
  | none => (s, .err .hostError)
  | some fn =>
    match fn.argv with
    | none => (s, .err .assertFail)
    | some argv =>
      let s₁ : EvalState :=
        match fn.is_lambda with
        | true => s
        | false => { s with ctx := s.ctx.pushStackFrame }
      match s₁.ctx.pushArgs fn.args argv with
      | (c₂, some e) => ({ s₁ with ctx := c₂ }, .err e)
      | (c₂, none) =>
        match ev fn.body { s₁ with ctx := c₂ } with
        | (s₃, .ok r) =>
          let s₄ := clearArgv s₃ fid
          match Context.popArgsAux s₄.ctx fn.args with
          | (c₅, some e) => ({ s₄ with ctx := c₅ }, .err e)
          | (c₅, none) =>
            match fn.is_lambda with
            | true => ({ s₄ with ctx := c₅ }, .ok r)
            | false =>
              match Context.popStackFrame c₅ with
              | .error e => ({ s₄ with ctx := c₅ }, .err e)
              | .ok c₆ => ({ s₄ with ctx := c₆ }, .ok r)
        | (s₃, .err e) => (s₃, .err e)
        | (s₃, .timeout) => (s₃, .timeout)

/-- One step of expression evaluation, parameterized by the evaluator
used for subexpressions; each arm is the `eval` method of the
corresponding `boi.py` class. -/
def evalStep (ev : Expr → EvalState → EvalState × Outcome) :
    Expr → EvalState → EvalState × Outcome
  | .value v, s => (s, .ok (.num v))
  | .var v, s =>
    match s.ctx.getVar v with
    | .ok x => (s, .ok x)
    | .error e => (s, .err e)
  | .additive lhs _op rhs sp, s =>
    -- `AdditiveExpr.eval` computes `lhs_value + rhs_value` without ever
    -- consulting `self.operator`: both `ADDITION` and `SUBTRACTION`
    -- nodes add.  Both operands are evaluated (lhs first) before the
    -- combination; a non-`Value` operand fails at the host level.
    match ev lhs s with
    | (s₁, .ok lv) =>
      match ev rhs s₁ with
      | (s₂, .ok rv) =>
        match lv, rv with
        | .num l, .num r => (s₂, .ok (.num ⟨l.value + r.value, sp⟩))
        | _, _ => (s₂, .err .hostError)
      | (s₂, .err e) => (s₂, .err e)
      | (s₂, .timeout) => (s₂, .timeout)
    | (s₁, .err e) => (s₁, .err e)
    | (s₁, .timeout) => (s₁, .timeout)
  | .comparison lhs op rhs _sp, s =>
    match ev lhs s with
    | (s₁, .ok lv) =>
      match ev rhs s₁ with
      | (s₂, .ok rv) =>
        match lv, rv with
        | .num l, .num r => (s₂, .ok (.bool (op.apply l.value r.value)))
        | _, _ => (s₂, .err .hostError)
      | (s₂, .err e) => (s₂, .err e)
      | (s₂, .timeout) => (s₂, .timeout)
    | (s₁, .err e) => (s₁, .err e)
    | (s₁, .timeout) => (s₁, .timeout)
  | .condition inner _sp, s =>
    -- `self.expr.eval(context).value not in FALSE_VALUES`; a raw-bool
    -- inner result has no `.value` attribute (host failure).
    match ev inner s with
    | (s₁, .ok (.num v)) =>
      (s₁, .ok (.bool (decide (v.value ∉ ConditionExpr.falseValues))))
    | (s₁, .ok (.bool _)) => (s₁, .err .hostError)
    | (s₁, .err e) => (s₁, .err e)
    | (s₁, .timeout) => (s₁, .timeout)
  | .letE nm vE bE _sp, s =>
    match ev vE s with
    | (s₁, .ok val) =>
      match s₁.ctx.pushVar nm val with
      | .error e => (s₁, .err e)
      | .ok c₁ =>
        match ev bE { s₁ with ctx := c₁ } with
        | (s₂, .ok bv) =>
          match s₂.ctx.popVar nm with
          | .error e => (s₂, .err e)
          | .ok c₂ => ({ s₂ with ctx := c₂ }, .ok bv)
        | (s₂, .err e) => (s₂, .err e)
        | (s₂, .timeout) => (s₂, .timeout)
    | (s₁, .err e) => (s₁, .err e)
    | (s₁, .timeout) => (s₁, .timeout)
  | .lambdaE fid bE _sp, s =>
    -- `LambdaExpr.eval`: register `as_fn`, run the usage body,
    -- unregister.  The pop consults the (immutable parts of the)
    -- current store entry for the `(name, arity)` key.
    match s.store[fid]? with
    | none => (s, .err .hostError)
    | some fn =>
      match s.ctx.pushFunction fid fn with
      | .error e => (s, .err e)
      | .ok c₁ =>
        match ev bE { s with ctx := c₁ } with
        | (s₂, .ok r) =>
          match s₂.store[fid]? with
          | none => (s₂, .err .hostError)
          | some fn' =>
            match s₂.ctx.popFunction fn' with
            | .error e => (s₂, .err e)
            | .ok c₂ => ({ s₂ with ctx := c₂ }, .ok r)
        | (s₂, .err e) => (s₂, .err e)
        | (s₂, .timeout) => (s₂, .timeout)
  | .fcall nm argvE _sp, s =>
    -- `FunctionCall.eval`: resolve by `(name, len(argv))`, evaluate the
    -- argument expressions in the caller's context, arm the function,
    -- invoke it.
    match s.ctx.getFunction nm argvE.length with
    | .error e => (s, .err e)
    | .ok fid =>
      match evalArgsWith ev argvE s with
      | (s₁, .ok vs) =>
        match setArgs s₁ fid vs with
        | .error e => (s₁, .err e)
        | .ok s₂ => fnEvalWith ev fid s₂
      | (s₁, .err e) => (s₁, .err e)
      | (s₁, .timeout) => (s₁, .timeout)
  | .ifE cond tE fE _sp, s =>
    match ev cond s with
    | (s₁, .ok cv) => if cv.truthy then ev tE s₁ else ev fE s₁
    | (s₁, .err e) => (s₁, .err e)
    | (s₁, .timeout) => (s₁, .timeout)

/-- Fuel-indexed evaluator for the source program (written as a direct
`Nat.rec` so that concrete runs reduce definitionally). -/
def evalE : Nat → Expr → EvalState → EvalState × Outcome :=
  Nat.rec (fun _ s => (s, .timeout)) (fun _ ih => evalStep ih)

/-- A top-level declaration of a `Program` (`statements` list): either a
`Function` object (by store index) or an expression. -/
inductive Stmt where
  | fn (fid : Nat)
  | expr (e : Expr)
deriving Repr

/-- `Program.run`: process statements in order.  The source dispatches
on `type(statement)`: exact equality with `Function` registers the
function; exact equality with `Expr` would evaluate — but every
expression the language can build is a proper subclass of `Expr`, so
that branch never fires for them and the `else` raises
`TypeError("Expected Function or Expr")`. -/
def runStmts : List Stmt → EvalState → EvalState × Option Err
  | [], s => (s, none)
  | st :: rest, s =>
    match st with
    | .fn fid =>
      match s.store[fid]? with
      | none => (s, some .hostError)
      | some fn =>
        match s.ctx.pushFunction fid fn with
        | .error e => (s, some e)
        | .ok c => runStmts rest { s with ctx := c }
    | .expr _ => (s, some (.typeError malformedMsg))

/-- A `Program`: its statements plus the heap of `Function` objects they
reference. -/
structure Program where
  statements : List Stmt
  store : List FunctionObj

/-- `Program.run` starting from the fresh context built in
`Program.__init__`. -/
def Program.run (p : Program) : EvalState × Option Err :=
  runStmts p.statements ⟨Context.init, p.store⟩

/-- Parameter variable `n` used by the demonstration programs below. -/
def vN : Var := ⟨"n", Span.EMPTY⟩

/-- Function name `f` used by the demonstration programs below. -/
def vF : Var := ⟨"f", Span.EMPTY⟩

/-- Body of the demonstration recursive function
`f(n) = if n then n + f(n + (-1)) else 0` (only addition is available —
see the `AdditiveExpr` note — so the argument is decremented by adding
`-1`). -/
def sumBody : Expr :=
  .ifE (.condition (.var vN) Span.EMPTY)
    (.additive (.var vN) .addition
      (.fcall vF [.additive (.var vN) .addition (.value ⟨-1, Span.EMPTY⟩) Span.EMPTY] Span.EMPTY)
      Span.EMPTY)
    (.value ⟨0, Span.EMPTY⟩)
    Span.EMPTY

/-- The demonstration recursive (non-lambda) `Function` object. -/
def sumFn : FunctionObj := ⟨vF, [vN], sumBody, Span.EMPTY, false, none⟩

/-- Store holding the single demonstration function. -/
def demoStore : List FunctionObj := [sumFn]

/-- Context with `f` registered (arity 1) in the base frame. -/
def demoCtx : Context := ⟨[⟨[], [(("f", 1), 0)]⟩]⟩

/-- State for the demonstration call. -/
def demoState : EvalState := ⟨demoCtx, demoStore⟩

/-- The demonstration call `f(3)`; recursion depth 4, result `3+2+1+0`. -/
def demoCall : Expr := .fcall vF [.value ⟨3, Span.EMPTY⟩] Span.EMPTY


/-!
The specification-side evaluator.

Modelled from the spec: §5 and §9 require that a correct implementation
"pass arguments as an explicit call-local structure rather than
node-local state".  `evalSpecE` below is that evaluator: it is
identical to `evalE` in every step except the call protocol — the
evaluated arguments are handed to the callee as a parameter of the call
and the function store is never read through the mutable `argv` slot
(and hence never mutated at all).  Claim C1 is settled by proving that
the source evaluator and this call-local evaluator agree on every
program, every context and every fuel bound.
-/

/-- Forget the pending-argument slot of one function object. -/
def eraseArgv1 (f : FunctionObj) : FunctionObj := { f with argv := none }

/-- Forget every pending-argument slot of a store. -/
def eraseArgv (st : List FunctionObj) : List FunctionObj :=
  st.map eraseArgv1

/-- Call-local argument evaluation (spec side); the store is read-only
so only the context is threaded. -/
def specArgsWith (ev : Expr → Context → Context × Outcome) :
    List Expr → Context → Context × OutcomeL
  | [], c => (c, .ok [])
  | e :: es, c =>
    match ev e c with
    | (c₁, .ok v) =>
      match specArgsWith ev es c₁ with
      | (c₂, .ok vs) => (c₂, .ok (v :: vs))
      | (c₂, .err er) => (c₂, .err er)
      | (c₂, .timeout) => (c₂, .timeout)
    | (c₁, .err er) => (c₁, .err er)
    | (c₁, .timeout) => (c₁, .timeout)

/-- Spec-side function invocation: the armed arguments arrive as the
parameter `argv` instead of being read from the shared slot; everything
else (frame push, binding, body, unbinding, frame pop, error behavior)
is step-for-step the same as `fnEvalWith`. -/
def fnSpecWith (ev : Expr → Context → Context × Outcome)
    (st : List FunctionObj) (fid : Nat) (argv : List RVal) (c : Context) :
    Context × Outcome :=
  match st[fid]? with
  | none => (c, .err .hostError)
  | some fn =>
    let c₁ : Context :=
      match fn.is_lambda with
      | true => c
      | false => c.pushStackFrame
    match c₁.pushArgs fn.args argv with
    | (c₂, some e) => (c₂, .err e)
    | (c₂, none) =>
      match ev fn.body c₂ with
      | (c₃, .ok r) =>
        match Context.popArgsAux c₃ fn.args with
        | (c₅, some e) => (c₅, .err e)
        | (c₅, none) =>
          match fn.is_lambda with
          | true => (c₅, .ok r)
          | false =>
            match Context.popStackFrame c₅ with
            | .error e => (c₅, .err e)
            | .ok c₆ => (c₆, .ok r)
      | (c₃, .err e) => (c₃, .err e)
      | (c₃, .timeout) => (c₃, .timeout)

/-- One spec-side evaluation step over a fixed (read-only) store. -/
def specStep (st : List FunctionObj)
    (ev : Expr → Context → Context × Outcome) :
    Expr → Context → Context × Outcome
  | .value v, c => (c, .ok (.num v))
  | .var v, c =>
    match c.getVar v with
    | .ok x => (c, .ok x)
    | .error e => (c, .err e)
  | .additive lhs _op rhs sp, c =>
    match ev lhs c with
    | (c₁, .ok lv) =>
      match ev rhs c₁ with
      | (c₂, .ok rv) =>
        match lv, rv with
        | .num l, .num r => (c₂, .ok (.num ⟨l.value + r.value, sp⟩))
        | _, _ => (c₂, .err .hostError)
      | (c₂, .err e) => (c₂, .err e)
      | (c₂, .timeout) => (c₂, .timeout)
    | (c₁, .err e) => (c₁, .err e)
    | (c₁, .timeout) => (c₁, .timeout)
  | .comparison lhs op rhs _sp, c =>
    match ev lhs c with
    | (c₁, .ok lv) =>
      match ev rhs c₁ with
      | (c₂, .ok rv) =>
        match lv, rv with
        | .num l, .num r => (c₂, .ok (.bool (op.apply l.value r.value)))
        | _, _ => (c₂, .err .hostError)
      | (c₂, .err e) => (c₂, .err e)
      | (c₂, .timeout) => (c₂, .timeout)
    | (c₁, .err e) => (c₁, .err e)
    | (c₁, .timeout) => (c₁, .timeout)
  | .condition inner _sp, c =>
    match ev inner c with
    | (c₁, .ok (.num v)) =>
      (c₁, .ok (.bool (decide (v.value ∉ ConditionExpr.falseValues))))
    | (c₁, .ok (.bool _)) => (c₁, .err .hostError)
    | (c₁, .err e) => (c₁, .err e)
    | (c₁, .timeout) => (c₁, .timeout)
  | .letE nm vE bE _sp, c =>
    match ev vE c with
    | (c₁, .ok val) =>
      match c₁.pushVar nm val with
      | .error e => (c₁, .err e)
      | .ok c₂ =>
        match ev bE c₂ with
        | (c₃, .ok bv) =>
          match c₃.popVar nm with
          | .error e => (c₃, .err e)
          | .ok c₄ => (c₄, .ok bv)
        | (c₃, .err e) => (c₃, .err e)
        | (c₃, .timeout) => (c₃, .timeout)
    | (c₁, .err e) => (c₁, .err e)
    | (c₁, .timeout) => (c₁, .timeout)
  | .lambdaE fid bE _sp, c =>
    match st[fid]? with
    | none => (c, .err .hostError)
    | some fn =>
      match c.pushFunction fid fn with
      | .error e => (c, .err e)
      | .ok c₁ =>
        match ev bE c₁ with
        | (c₂, .ok r) =>
          match st[fid]? with
          | none => (c₂, .err .hostError)
          | some fn' =>
            match c₂.popFunction fn' with
            | .error e => (c₂, .err e)
            | .ok c₃ => (c₃, .ok r)
        | (c₂, .err e) => (c₂, .err e)
        | (c₂, .timeout) => (c₂, .timeout)
  | .fcall nm argvE _sp, c =>
    match c.getFunction nm argvE.length with
    | .error e => (c, .err e)
    | .ok fid =>
      match specArgsWith ev argvE c with
      | (c₁, .ok vs) =>
        match st[fid]? with
        | none => (c₁, .err .hostError)
        | some fn =>
          if vs.length = fn.args.length then fnSpecWith ev st fid vs c₁
          else (c₁, .err (.exn arityMsg))
      | (c₁, .err e) => (c₁, .err e)
      | (c₁, .timeout) => (c₁, .timeout)
  | .ifE cond tE fE _sp, c =>
    match ev cond c with
    | (c₁, .ok cv) => if cv.truthy then ev tE c₁ else ev fE c₁
    | (c₁, .err e) => (c₁, .err e)
    | (c₁, .timeout) => (c₁, .timeout)

/-- Fuel-indexed spec-side evaluator with call-local argument passing
(also a direct `Nat.rec`). -/
def evalSpecE : Nat → List FunctionObj → Expr → Context → Context × Outcome :=
  Nat.rec (fun _ _ c => (c, .timeout))
    (fun _ ih st e c => specStep st (ih st) e c)

theorem get?_eraseArgv (st : List FunctionObj) (i : Nat) :
    (eraseArgv st)[i]? = (st[i]?).map eraseArgv1 := by
  induction st generalizing i with
  | nil => cases i <;> rfl
  | cons f t ih => cases i <;> simp [eraseArgv, ih]

theorem eraseArgv1_mk_argv (fn : FunctionObj) (x : Option (List RVal)) :
    eraseArgv1 { fn with argv := x } = eraseArgv1 fn := rfl

theorem eraseArgv_set_argv (st : List FunctionObj) (fid : Nat)
    (fn : FunctionObj) (x : Option (List RVal))
    (h : st[fid]? = some fn) :
    eraseArgv (st.set fid { fn with argv := x }) = eraseArgv st := by
  induction st generalizing fid with
  | nil => simp at h
  | cons f t ih =>
    cases fid with
    | zero =>
      simp at h
      subst h
      simp [eraseArgv, eraseArgv1]
    | succ j =>
      simp at h
      simp [eraseArgv, List.set]
      have := ih j h
      simpa [eraseArgv] using this

theorem clearArgv_ctx (s : EvalState) (fid : Nat) :
    (clearArgv s fid).ctx = s.ctx := by
  cases h : s.store[fid]? <;> simp [clearArgv, h]

theorem clearArgv_erase (s : EvalState) (fid : Nat) :
    eraseArgv (clearArgv s fid).store = eraseArgv s.store := by
  cases h : s.store[fid]? with
  | none => simp [clearArgv, h]
  | some fn => simp [clearArgv, h, eraseArgv_set_argv s.store fid fn none h]

theorem eraseArgv1_fields {f g : FunctionObj}
    (h : eraseArgv1 f = eraseArgv1 g) :
    f.name = g.name ∧ f.args = g.args ∧ f.body = g.body ∧
      f.span = g.span ∧ f.is_lambda = g.is_lambda := by
  cases f
  cases g
  simp [eraseArgv1] at h
  simp [h.1, h.2.1, h.2.2.1, h.2.2.2.1, h.2.2.2.2]

theorem related_get?_some {st₁ st₂ : List FunctionObj}
    (hrel : eraseArgv st₁ = eraseArgv st₂) {i : Nat} {fn : FunctionObj}
    (h : st₁[i]? = some fn) :
    ∃ fn', st₂[i]? = some fn' ∧ eraseArgv1 fn' = eraseArgv1 fn := by
  have h1 := get?_eraseArgv st₁ i
  have h2 := get?_eraseArgv st₂ i
  rw [hrel] at h1
  rw [h1, h] at h2
  cases h3 : st₂[i]? with
  | none => rw [h3] at h2; simp at h2
  | some g =>
    rw [h3] at h2
    simp at h2
    exact ⟨g, rfl, h2.symm⟩

theorem related_get?_none {st₁ st₂ : List FunctionObj}
    (hrel : eraseArgv st₁ = eraseArgv st₂) {i : Nat}
    (h : st₁[i]? = none) : st₂[i]? = none := by
  have h1 := get?_eraseArgv st₁ i
  have h2 := get?_eraseArgv st₂ i
  rw [hrel] at h1
  rw [h1, h] at h2
  cases h3 : st₂[i]? with
  | none => rfl
  | some g => rw [h3] at h2; simp at h2

/-- Simulation relation between the source evaluator (mutable
pending-argument slots) and the call-local spec evaluator: whenever the
two stores agree after erasing every argv slot, both evaluators produce
the same outcome and the same final context, and the source evaluator
changes its store in the argv slots only. -/
def EvRel (ev₁ : Expr → EvalState → EvalState × Outcome)
    (ev₂ : List FunctionObj → Expr → Context → Context × Outcome) : Prop :=
  ∀ e s st₂, eraseArgv s.store = eraseArgv st₂ →
    (ev₁ e s).2 = (ev₂ st₂ e s.ctx).2 ∧
    (ev₁ e s).1.ctx = (ev₂ st₂ e s.ctx).1 ∧
    eraseArgv (ev₁ e s).1.store = eraseArgv s.store

theorem argsRel {ev₁ : Expr → EvalState → EvalState × Outcome}
    {ev₂ : List FunctionObj → Expr → Context → Context × Outcome}
    (hR : EvRel ev₁ ev₂) (es : List Expr) :
    ∀ s st₂, eraseArgv s.store = eraseArgv st₂ →
      (evalArgsWith ev₁ es s).2 = (specArgsWith (ev₂ st₂) es s.ctx).2 ∧
      (evalArgsWith ev₁ es s).1.ctx = (specArgsWith (ev₂ st₂) es s.ctx).1 ∧
      eraseArgv (evalArgsWith ev₁ es s).1.store = eraseArgv s.store := by
  induction es with
  | nil => intro s st₂ h; exact ⟨rfl, rfl, rfl⟩
  | cons e es ih =>
    intro s st₂ h
    obtain ⟨ho, hc, hs⟩ := hR e s st₂ h
    rcases h1 : ev₁ e s with ⟨s₁, o₁⟩
    rcases h2 : ev₂ st₂ e s.ctx with ⟨c₁, o₁'⟩
    rw [h1] at ho hc hs
    rw [h2] at ho hc
    replace ho : o₁ = o₁' := ho
    replace hc : s₁.ctx = c₁ := hc
    replace hs : eraseArgv s₁.store = eraseArgv s.store := hs
    subst ho
    cases o₁ with
    | ok v =>
      obtain ⟨ho2, hc2, hs2⟩ := ih s₁ st₂ (by rw [hs, h])
      rcases h3 : evalArgsWith ev₁ es s₁ with ⟨s₂, o₂⟩
      rcases h4 : specArgsWith (ev₂ st₂) es s₁.ctx with ⟨c₂, o₂'⟩
      rw [h3] at ho2 hc2 hs2
      rw [h4] at ho2 hc2
      replace ho2 : o₂ = o₂' := ho2
      replace hc2 : s₂.ctx = c₂ := hc2
      replace hs2 : eraseArgv s₂.store = eraseArgv s₁.store := hs2
      subst ho2
      rw [← hc] at h2
      simp only [evalArgsWith, specArgsWith, h1, h2, h3, h4]
      cases o₂ with
      | ok vs => exact ⟨rfl, hc2, hs2.trans hs⟩
      | err er => exact ⟨rfl, hc2, hs2.trans hs⟩
      | timeout => exact ⟨rfl, hc2, hs2.trans hs⟩
    | err er =>
      rw [← hc] at h2
      simp only [evalArgsWith, specArgsWith, h1, h2]
      exact ⟨by trivial, by trivial, hs⟩
    | timeout =>
      rw [← hc] at h2
      simp only [evalArgsWith, specArgsWith, h1, h2]
      exact ⟨by trivial, by trivial, hs⟩

theorem fnRel {ev₁ : Expr → EvalState → EvalState × Outcome}
    {ev₂ : List FunctionObj → Expr → Context → Context × Outcome}
    (hR : EvRel ev₁ ev₂) (fid : Nat) (s : EvalState)
    (st₂ : List FunctionObj) (fn : FunctionObj) (vs : List RVal)
    (hrel : eraseArgv s.store = eraseArgv st₂)
    (hget : s.store[fid]? = some fn)
    (hargv : fn.argv = some vs) :
    (fnEvalWith ev₁ fid s).2 = (fnSpecWith (ev₂ st₂) st₂ fid vs s.ctx).2 ∧
    (fnEvalWith ev₁ fid s).1.ctx = (fnSpecWith (ev₂ st₂) st₂ fid vs s.ctx).1 ∧
    eraseArgv (fnEvalWith ev₁ fid s).1.store = eraseArgv s.store := by
  obtain ⟨fn', hget', hf⟩ := related_get?_some hrel hget
  obtain ⟨hnm, hargs, hbody, hspan, hlam⟩ := eraseArgv1_fields hf
  simp only [fnEvalWith, fnSpecWith, hget, hget', hargv, hnm, hargs, hbody, hlam]
  cases hl : fn.is_lambda with
  | true =>
    simp only []
    rcases hpush : s.ctx.pushArgs fn.args vs with ⟨c₂, oe⟩
    cases oe with
    | some e => exact ⟨by trivial, by trivial, by trivial⟩
    | none =>
      obtain ⟨ho3, hc3, hs3⟩ := hR fn.body { s with ctx := c₂ } st₂ hrel
      rcases h3 : ev₁ fn.body { s with ctx := c₂ } with ⟨s₃, o₃⟩
      rcases h4 : ev₂ st₂ fn.body c₂ with ⟨c₃, o₃'⟩
      rw [h3] at ho3 hc3 hs3
      rw [h4] at ho3 hc3
      replace ho3 : o₃ = o₃' := ho3
      replace hc3 : s₃.ctx = c₃ := hc3
      replace hs3 : eraseArgv s₃.store = eraseArgv s.store := hs3
      subst ho3
      simp only [h3, h4]
      cases o₃ with
      | ok r =>
        have hcc : (clearArgv s₃ fid).ctx = c₃ := by rw [clearArgv_ctx, hc3]
        have hss : eraseArgv (clearArgv s₃ fid).store = eraseArgv s.store := by
          rw [clearArgv_erase, hs3]
        rcases hpop : Context.popArgsAux c₃ fn.args with ⟨c₅, oe2⟩
        rw [← hcc] at hpop
        simp only [hpop, hcc ▸ hpop]
        cases oe2 with
        | some e => exact ⟨by trivial, by trivial, hss⟩
        | none => exact ⟨by trivial, by trivial, hss⟩
      | err e => exact ⟨by trivial, hc3, hs3⟩
      | timeout => exact ⟨by trivial, hc3, hs3⟩
  | false =>
    simp only []
    rcases hpush : (s.ctx.pushStackFrame).pushArgs fn.args vs with ⟨c₂, oe⟩
    cases oe with
    | some e => exact ⟨by trivial, by trivial, by trivial⟩
    | none =>
      obtain ⟨ho3, hc3, hs3⟩ := hR fn.body
        { ctx := c₂, store := s.store } st₂ hrel
      rcases h3 : ev₁ fn.body { ctx := c₂, store := s.store } with ⟨s₃, o₃⟩
      rcases h4 : ev₂ st₂ fn.body c₂ with ⟨c₃, o₃'⟩
      rw [h3] at ho3 hc3 hs3
      rw [h4] at ho3 hc3
      replace ho3 : o₃ = o₃' := ho3
      replace hc3 : s₃.ctx = c₃ := hc3
      replace hs3 : eraseArgv s₃.store = eraseArgv s.store := hs3
      subst ho3
      simp only [h3, h4]
      cases o₃ with
      | ok r =>
        have hcc : (clearArgv s₃ fid).ctx = c₃ := by rw [clearArgv_ctx, hc3]
        have hss : eraseArgv (clearArgv s₃ fid).store = eraseArgv s.store := by
          rw [clearArgv_erase, hs3]
        rcases hpop : Context.popArgsAux c₃ fn.args with ⟨c₅, oe2⟩
        rw [← hcc] at hpop
        simp only [hpop, hcc ▸ hpop]
        cases oe2 with
        | some e => exact ⟨by trivial, by trivial, hss⟩
        | none =>
          rcases hpf : Context.popStackFrame c₅ with e | c₆
          · simp only [hpf]
            exact ⟨by trivial, by trivial, hss⟩
          · simp only [hpf]
            exact ⟨by trivial, by trivial, hss⟩
      | err e => exact ⟨by trivial, hc3, hs3⟩
      | timeout => exact ⟨by trivial, hc3, hs3⟩

theorem getElem?_set_of_some {α : Type} (l : List α) (i : Nat) (v w : α)
    (h : l[i]? = some w) : (l.set i v)[i]? = some v := by
  induction l generalizing i with
  | nil => simp at h
  | cons a t ih =>
    cases i with
    | zero => simp
    | succ j => simpa using ih j (by simpa using h)

theorem evRelStep {ev₁ : Expr → EvalState → EvalState × Outcome}
    {ev₂ : List FunctionObj → Expr → Context → Context × Outcome}
    (hR : EvRel ev₁ ev₂) :
    EvRel (evalStep ev₁) (fun st e c => specStep st (ev₂ st) e c) := by
  intro e s st₂ hrel
  cases e with
  | value v => exact ⟨rfl, rfl, rfl⟩
  | var v =>
    cases hv : s.ctx.getVar v <;>
      simp only [evalStep, specStep, hv] <;>
      exact ⟨by trivial, by trivial, by trivial⟩
  | additive lhs op rhs sp =>
    obtain ⟨ho, hc, hs⟩ := hR lhs s st₂ hrel
    rcases h1 : ev₁ lhs s with ⟨s₁, o₁⟩
    rcases h2 : ev₂ st₂ lhs s.ctx with ⟨c₁, o₁'⟩
    rw [h1] at ho hc hs
    rw [h2] at ho hc
    replace ho : o₁ = o₁' := ho
    replace hc : s₁.ctx = c₁ := hc
    replace hs : eraseArgv s₁.store = eraseArgv s.store := hs
    subst ho
    rw [← hc] at h2
    cases o₁ with
    | ok lv =>
      obtain ⟨ho2, hc2, hs2⟩ := hR rhs s₁ st₂ (hs.trans hrel)
      rcases h3 : ev₁ rhs s₁ with ⟨s₂, o₂⟩
      rcases h4 : ev₂ st₂ rhs s₁.ctx with ⟨c₂, o₂'⟩
      rw [h3] at ho2 hc2 hs2
      rw [h4] at ho2 hc2
      replace ho2 : o₂ = o₂' := ho2
      replace hc2 : s₂.ctx = c₂ := hc2
      replace hs2 : eraseArgv s₂.store = eraseArgv s₁.store := hs2
      subst ho2
      simp only [evalStep, specStep, h1, h2, h3, h4]
      cases o₂ with
      | ok rv =>
        cases lv <;> cases rv <;>
          exact ⟨by trivial, hc2, hs2.trans hs⟩
      | err e2 => exact ⟨by trivial, hc2, hs2.trans hs⟩
      | timeout => exact ⟨by trivial, hc2, hs2.trans hs⟩
    | err e1 =>
      simp only [evalStep, specStep, h1, h2]
      exact ⟨by trivial, by trivial, hs⟩
    | timeout =>
      simp only [evalStep, specStep, h1, h2]
      exact ⟨by trivial, by trivial, hs⟩
  | comparison lhs op rhs sp =>
    obtain ⟨ho, hc, hs⟩ := hR lhs s st₂ hrel
    rcases h1 : ev₁ lhs s with ⟨s₁, o₁⟩
    rcases h2 : ev₂ st₂ lhs s.ctx with ⟨c₁, o₁'⟩
    rw [h1] at ho hc hs
    rw [h2] at ho hc
    replace ho : o₁ = o₁' := ho
    replace hc : s₁.ctx = c₁ := hc
    replace hs : eraseArgv s₁.store = eraseArgv s.store := hs
    subst ho
    rw [← hc] at h2
    cases o₁ with
    | ok lv =>
      obtain ⟨ho2, hc2, hs2⟩ := hR rhs s₁ st₂ (hs.trans hrel)
      rcases h3 : ev₁ rhs s₁ with ⟨s₂, o₂⟩
      rcases h4 : ev₂ st₂ rhs s₁.ctx with ⟨c₂, o₂'⟩
      rw [h3] at ho2 hc2 hs2
      rw [h4] at ho2 hc2
      replace ho2 : o₂ = o₂' := ho2
      replace hc2 : s₂.ctx = c₂ := hc2
      replace hs2 : eraseArgv s₂.store = eraseArgv s₁.store := hs2
      subst ho2
      simp only [evalStep, specStep, h1, h2, h3, h4]
      cases o₂ with
      | ok rv =>
        cases lv <;> cases rv <;>
          exact ⟨by trivial, hc2, hs2.trans hs⟩
      | err e2 => exact ⟨by trivial, hc2, hs2.trans hs⟩
      | timeout => exact ⟨by trivial, hc2, hs2.trans hs⟩
    | err e1 =>
      simp only [evalStep, specStep, h1, h2]
      exact ⟨by trivial, by trivial, hs⟩
    | timeout =>
      simp only [evalStep, specStep, h1, h2]
      exact ⟨by trivial, by trivial, hs⟩
  | condition inner sp =>
    obtain ⟨ho, hc, hs⟩ := hR inner s st₂ hrel
    rcases h1 : ev₁ inner s with ⟨s₁, o₁⟩
    rcases h2 : ev₂ st₂ inner s.ctx with ⟨c₁, o₁'⟩
    rw [h1] at ho hc hs
    rw [h2] at ho hc
    replace ho : o₁ = o₁' := ho
    replace hc : s₁.ctx = c₁ := hc
    replace hs : eraseArgv s₁.store = eraseArgv s.store := hs
    subst ho
    rw [← hc] at h2
    cases o₁ with
    | ok v =>
      cases v <;>
        simp only [evalStep, specStep, h1, h2] <;>
        exact ⟨by trivial, by trivial, hs⟩
    | err e1 =>
      simp only [evalStep, specStep, h1, h2]
      exact ⟨by trivial, by trivial, hs⟩
    | timeout =>
      simp only [evalStep, specStep, h1, h2]
      exact ⟨by trivial, by trivial, hs⟩
  | ifE cond tE fE sp =>
    obtain ⟨ho, hc, hs⟩ := hR cond s st₂ hrel
    rcases h1 : ev₁ cond s with ⟨s₁, o₁⟩
    rcases h2 : ev₂ st₂ cond s.ctx with ⟨c₁, o₁'⟩
    rw [h1] at ho hc hs
    rw [h2] at ho hc
    replace ho : o₁ = o₁' := ho
    replace hc : s₁.ctx = c₁ := hc
    replace hs : eraseArgv s₁.store = eraseArgv s.store := hs
    subst ho
    rw [← hc] at h2
    cases o₁ with
    | ok cv =>
      simp only [evalStep, specStep, h1, h2]
      cases hb : cv.truthy with
      | true =>
        simp only [if_pos rfl]
        obtain ⟨hoT, hcT, hsT⟩ := hR tE s₁ st₂ (hs.trans hrel)
        exact ⟨hoT, hcT, hsT.trans hs⟩
      | false =>
        simp only [Bool.false_eq_true, if_neg, if_false]
        obtain ⟨hoF, hcF, hsF⟩ := hR fE s₁ st₂ (hs.trans hrel)
        exact ⟨hoF, hcF, hsF.trans hs⟩
    | err e1 =>
      simp only [evalStep, specStep, h1, h2]
      exact ⟨by trivial, by trivial, hs⟩
    | timeout =>
      simp only [evalStep, specStep, h1, h2]
      exact ⟨by trivial, by trivial, hs⟩
  | letE nm vE bE sp =>
    obtain ⟨ho, hc, hs⟩ := hR vE s st₂ hrel
    rcases h1 : ev₁ vE s with ⟨s₁, o₁⟩
    rcases h2 : ev₂ st₂ vE s.ctx with ⟨c₁, o₁'⟩
    rw [h1] at ho hc hs
    rw [h2] at ho hc
    replace ho : o₁ = o₁' := ho
    replace hc : s₁.ctx = c₁ := hc
    replace hs : eraseArgv s₁.store = eraseArgv s.store := hs
    subst ho
    rw [← hc] at h2
    cases o₁ with
    | ok val =>
      cases hpv : s₁.ctx.pushVar nm val with
      | error e =>
        simp only [evalStep, specStep, h1, h2, hpv]
        exact ⟨by trivial, by trivial, hs⟩
      | ok cB =>
        obtain ⟨ho2, hc2, hs2⟩ := hR bE { s₁ with ctx := cB } st₂ (hs.trans hrel)
        rcases h3 : ev₁ bE { s₁ with ctx := cB } with ⟨s₂, o₂⟩
        rcases h4 : ev₂ st₂ bE cB with ⟨c₂, o₂'⟩
        rw [h3] at ho2 hc2 hs2
        rw [h4] at ho2 hc2
        replace ho2 : o₂ = o₂' := ho2
        replace hc2 : s₂.ctx = c₂ := hc2
        replace hs2 : eraseArgv s₂.store = eraseArgv s₁.store := hs2
        subst ho2
        simp only [evalStep, specStep, h1, h2, hpv, h3, h4]
        cases o₂ with
        | ok bv =>
          rw [← hc2]
          cases hpo : s₂.ctx.popVar nm <;>
            simp only [hpo] <;>
            exact ⟨by trivial, by trivial, hs2.trans hs⟩
        | err e2 => exact ⟨by trivial, hc2, hs2.trans hs⟩
        | timeout => exact ⟨by trivial, hc2, hs2.trans hs⟩
    | err e1 =>
      simp only [evalStep, specStep, h1, h2]
      exact ⟨by trivial, by trivial, hs⟩
    | timeout =>
      simp only [evalStep, specStep, h1, h2]
      exact ⟨by trivial, by trivial, hs⟩
  | lambdaE fid bE sp =>
    cases hget : s.store[fid]? with
    | none =>
      have hget' := related_get?_none hrel hget
      simp only [evalStep, specStep, hget, hget']
      exact ⟨by trivial, by trivial, by trivial⟩
    | some fn =>
      obtain ⟨fn', hget', hf⟩ := related_get?_some hrel hget
      obtain ⟨hnm, hargs, hbody, hspan, hlam⟩ := eraseArgv1_fields hf
      have hpfeq : ∀ c₀ : Context, c₀.pushFunction fid fn' = c₀.pushFunction fid fn := by
        intro c₀
        simp only [Context.pushFunction, hnm, hargs, hspan]
      cases hpf : s.ctx.pushFunction fid fn with
      | error e =>
        simp only [evalStep, specStep, hget, hget', hpfeq, hpf]
        exact ⟨by trivial, by trivial, by trivial⟩
      | ok c₁ =>
        obtain ⟨ho2, hc2, hs2⟩ := hR bE { s with ctx := c₁ } st₂ hrel
        rcases h3 : ev₁ bE { s with ctx := c₁ } with ⟨s₂, o₂⟩
        rcases h4 : ev₂ st₂ bE c₁ with ⟨c₂, o₂'⟩
        rw [h3] at ho2 hc2 hs2
        rw [h4] at ho2 hc2
        replace ho2 : o₂ = o₂' := ho2
        replace hc2 : s₂.ctx = c₂ := hc2
        replace hs2 : eraseArgv s₂.store = eraseArgv s.store := hs2
        subst ho2
        simp only [evalStep, specStep, hget, hget', hpfeq, hpf, hbody, h3, h4]
        cases o₂ with
        | ok r =>
          obtain ⟨fn₂, hget₂, hf₂⟩ :=
            related_get?_some ((hs2.trans hrel).symm) hget'
          obtain ⟨hnm₂, hargs₂, hbody₂, hspan₂, hlam₂⟩ := eraseArgv1_fields hf₂
          have hpop2 : s₂.ctx.popFunction fn₂ = s₂.ctx.popFunction fn' := by
            simp only [Context.popFunction, hnm₂, hargs₂, hspan₂]
          rw [← hc2]
          simp only [hget₂, hpop2]
          cases hpo : s₂.ctx.popFunction fn' <;>
            simp only [hpo] <;>
            exact ⟨by trivial, by trivial, hs2⟩
        | err e2 => exact ⟨by trivial, hc2, hs2⟩
        | timeout => exact ⟨by trivial, hc2, hs2⟩
  | fcall nm argvE sp =>
    cases hgf : s.ctx.getFunction nm argvE.length with
    | error e =>
      simp only [evalStep, specStep, hgf]
      exact ⟨by trivial, by trivial, by trivial⟩
    | ok fid =>
      obtain ⟨hoA, hcA, hsA⟩ := argsRel hR argvE s st₂ hrel
      rcases hA1 : evalArgsWith ev₁ argvE s with ⟨s₁, oL⟩
      rcases hA2 : specArgsWith (ev₂ st₂) argvE s.ctx with ⟨c₁, oL'⟩
      rw [hA1] at hoA hcA hsA
      rw [hA2] at hoA hcA
      replace hoA : oL = oL' := hoA
      replace hcA : s₁.ctx = c₁ := hcA
      replace hsA : eraseArgv s₁.store = eraseArgv s.store := hsA
      subst hoA
      rw [← hcA] at hA2
      cases oL with
      | ok vs =>
        cases hget : s₁.store[fid]? with
        | none =>
          have hget' := related_get?_none (hsA.trans hrel) hget
          simp only [evalStep, specStep, hgf, hA1, hA2, setArgs, hget, hget']
          exact ⟨by trivial, by trivial, hsA⟩
        | some fn₁ =>
          obtain ⟨fn', hget', hf⟩ := related_get?_some (hsA.trans hrel) hget
          obtain ⟨hnm, hargs, hbody, hspan, hlam⟩ := eraseArgv1_fields hf
          cases hlen : decide (vs.length = fn₁.args.length) with
          | false =>
            have hlen' : ¬ vs.length = fn₁.args.length := of_decide_eq_false hlen
            simp only [evalStep, specStep, hgf, hA1, hA2, setArgs, hget, hget',
              hargs, if_neg hlen']
            exact ⟨by trivial, by trivial, hsA⟩
          | true =>
            have hlen' : vs.length = fn₁.args.length := of_decide_eq_true hlen
            have hsetget :
                (s₁.store.set fid { fn₁ with argv := some vs })[fid]? =
                  some { fn₁ with argv := some vs } :=
              getElem?_set_of_some s₁.store fid _ _ hget
            have hseterase :
                eraseArgv (s₁.store.set fid { fn₁ with argv := some vs }) =
                  eraseArgv s₁.store :=
              eraseArgv_set_argv s₁.store fid fn₁ (some vs) hget
            obtain ⟨hoF, hcF, hsF⟩ :=
              fnRel hR fid
                { ctx := s₁.ctx, store := s₁.store.set fid { fn₁ with argv := some vs } }
                st₂ { fn₁ with argv := some vs } vs
                (by simpa [hseterase] using hsA.trans hrel)
                (by simpa using hsetget) rfl
            simp only [evalStep, specStep, hgf, hA1, hA2, setArgs, hget, hget',
              hargs, if_pos hlen']
            refine ⟨?_, ?_, ?_⟩
            · exact hoF
            · exact hcF
            · exact (by simpa [hseterase] using hsF : eraseArgv _ = eraseArgv s₁.store).trans hsA
      | err e1 =>
        simp only [evalStep, specStep, hgf, hA1, hA2]
        exact ⟨by trivial, by trivial, hsA⟩
      | timeout =>
        simp only [evalStep, specStep, hgf, hA1, hA2]
        exact ⟨by trivial, by trivial, hsA⟩

theorem evalE_spec_rel : ∀ n, EvRel (evalE n) (evalSpecE n) := by
  intro n
  induction n with
  | zero => intro e s st₂ h; exact ⟨rfl, rfl, rfl⟩
  | succ n ih => exact evRelStep ih

/-- Evaluation only ever changes the store in the argv slots: the
argv-erased store is invariant across any evaluation, successful or
not. -/
theorem evalE_storeErase (n : Nat) (e : Expr) (s : EvalState) :
    eraseArgv (evalE n e s).1.store = eraseArgv s.store :=
  (evalE_spec_rel n e s s.store rfl).2.2

/-- Lookup in the current (topmost) frame only. -/
def curLookup (c : Context) (k : String) : Option RVal :=
  match c.stack_frames with
  | [] => none
  | sf :: _ => alookup sf.vars k

theorem popVar_pushVar (c c' : Context) (a : Var) (v : RVal)
    (h : c.pushVar a v = .ok c') : c'.popVar a = .ok c := by
  unfold Context.pushVar at h
  cases hf : c.stack_frames with
  | nil => rw [hf] at h; exact absurd h (by simp)
  | cons sf rest =>
    rw [hf] at h
    by_cases hl : (alookup sf.vars a.name).isSome
    · simp [hl] at h
    · simp [hl] at h
      subst h
      unfold Context.popVar
      simp [alookup_cons_self, aerase_cons_self]
      rw [← hf]

theorem pushVar_curLookup_none (c c' : Context) (a : Var) (v : RVal)
    (h : c.pushVar a v = .ok c') : curLookup c a.name = none := by
  unfold Context.pushVar at h
  cases hf : c.stack_frames with
  | nil => rw [hf] at h; exact absurd h (by simp)
  | cons sf rest =>
    rw [hf] at h
    by_cases hl : (alookup sf.vars a.name).isSome
    · simp [hl] at h
    · simp only [curLookup, hf]
      exact Option.not_isSome_iff_eq_none.mp hl

theorem pushVar_curLookup_self (c c' : Context) (a : Var) (v : RVal)
    (h : c.pushVar a v = .ok c') : curLookup c' a.name = some v := by
  unfold Context.pushVar at h
  cases hf : c.stack_frames with
  | nil => rw [hf] at h; exact absurd h (by simp)
  | cons sf rest =>
    rw [hf] at h
    by_cases hl : (alookup sf.vars a.name).isSome
    · simp [hl] at h
    · simp [hl] at h
      subst h
      simp [curLookup, alookup_cons_self]

theorem popVar_of_curLookup (c : Context) (a : Var) (w : RVal)
    (h : curLookup c a.name = some w) : ∃ d, c.popVar a = .ok d := by
  unfold curLookup at h
  cases hf : c.stack_frames with
  | nil => rw [hf] at h; simp at h
  | cons sf rest =>
    rw [hf] at h
    replace h : alookup sf.vars a.name = some w := h
    refine ⟨⟨{ sf with vars := aerase sf.vars a.name } :: rest⟩, ?_⟩
    unfold Context.popVar
    rw [hf]
    simp [h]

theorem pushArgsAux_preserve (args : List Var) :
    ∀ (vals : List RVal) (c c' : Context), args.length = vals.length →
      Context.pushArgsAux c args vals = (c', none) →
      ∀ (k : String) (w : RVal), curLookup c k = some w →
        (∀ b ∈ args, b.name ≠ k) ∧ curLookup c' k = some w := by
  induction args with
  | nil =>
    intro vals c c' _ h k w hk
    simp only [Context.pushArgsAux] at h
    injection h with h1 h2
    subst h1
    exact ⟨by simp, hk⟩
  | cons a as ih =>
    intro vals c c' hlen h k w hk
    cases vals with
    | nil => simp at hlen
    | cons v vs =>
      simp only [Context.pushArgsAux] at h
      cases hp : c.pushVar a v with
      | error e => rw [hp] at h; simp at h
      | ok c₁ =>
        rw [hp] at h
        have hnone := pushVar_curLookup_none c c₁ a v hp
        have hak : a.name ≠ k := by
          intro hEq
          rw [hEq] at hnone
          rw [hnone] at hk
          exact Option.noConfusion hk
        have hk1 : curLookup c₁ k = some w := by
          unfold Context.pushVar at hp
          cases hf : c.stack_frames with
          | nil => rw [hf] at hp; exact absurd hp (by simp)
          | cons sf rest =>
            rw [hf] at hp
            by_cases hl : (alookup sf.vars a.name).isSome
            · simp [hl] at hp
            · simp [hl] at hp
              subst hp
              simp only [curLookup] at hk ⊢
              rw [hf] at hk
              replace hk : alookup sf.vars k = some w := hk
              simpa [alookup_cons_ne a.name k v sf.vars hak] using hk
        obtain ⟨hrest, hfin⟩ := ih vs c₁ c' (by simpa using hlen) h k w hk1
        refine ⟨?_, hfin⟩
        intro b hb
        rcases List.mem_cons.mp hb with hb | hb
        · rw [hb]; exact hak
        · exact hrest b hb

theorem popVar_diamond (X Xa Xb : Context) (a b : Var)
    (hne : b.name ≠ a.name)
    (ha : X.popVar a = .ok Xa) (hb : X.popVar b = .ok Xb) :
    ∃ W, Xa.popVar b = .ok W ∧ Xb.popVar a = .ok W := by
  unfold Context.popVar at ha hb ⊢
  cases hf : X.stack_frames with
  | nil => rw [hf] at ha; exact absurd ha (by simp)
  | cons sf rest =>
    rw [hf] at ha hb
    by_cases hla : (alookup sf.vars a.name).isSome
    · by_cases hlb : (alookup sf.vars b.name).isSome
      · simp only [hla, hlb, if_pos] at ha hb
        replace ha :
            (⟨{ sf with vars := aerase sf.vars a.name } :: rest⟩ : Context) = Xa := by
          simpa using ha
        replace hb :
            (⟨{ sf with vars := aerase sf.vars b.name } :: rest⟩ : Context) = Xb := by
          simpa using hb
        subst ha
        subst hb
        refine ⟨⟨{ sf with vars := aerase (aerase sf.vars a.name) b.name } :: rest⟩, ?_, ?_⟩
        · have hlb' : (alookup (aerase sf.vars a.name) b.name).isSome := by
            rwa [alookup_aerase_ne sf.vars a.name b.name hne]
          simp [hlb']
        · have hla' : (alookup (aerase sf.vars b.name) a.name).isSome := by
            rwa [alookup_aerase_ne sf.vars b.name a.name (Ne.symm hne)]
          simp only [hla', if_pos]
          rw [aerase_comm]
      · simp [hlb] at hb
    · simp [hla] at ha

theorem popArgs_comm (as : List Var) :
    ∀ (X X' Y : Context) (a : Var), (∀ b ∈ as, b.name ≠ a.name) →
      X.popVar a = .ok X' → Context.popArgsAux X as = (Y, none) →
      ∃ Z, Context.popArgsAux X' as = (Z, none) ∧ Y.popVar a = .ok Z := by
  induction as with
  | nil =>
    intro X X' Y a _ hpop h
    simp only [Context.popArgsAux] at h
    injection h with h1 h2
    subst h1
    exact ⟨X', rfl, hpop⟩
  | cons b bs ih =>
    intro X X' Y a hne hpop h
    simp only [Context.popArgsAux] at h
    cases hb : X.popVar b with
    | error e => rw [hb] at h; simp at h
    | ok X₁ =>
      rw [hb] at h
      have hba : b.name ≠ a.name := hne b (by simp)
      obtain ⟨W, hW1, hW2⟩ := popVar_diamond X X' X₁ a b hba hpop hb
      obtain ⟨Z, hZ1, hZ2⟩ :=
        ih X₁ W Y a (fun x hx => hne x (by simp [hx])) hW2 h
      refine ⟨Z, ?_, hZ2⟩
      simp only [Context.popArgsAux, hW1]
      exact hZ1

theorem popArgsAux_pushArgsAux (args : List Var) :
    ∀ (vals : List RVal) (c c' : Context), args.length = vals.length →
      Context.pushArgsAux c args vals = (c', none) →
      Context.popArgsAux c' args = (c, none) := by
  induction args with
  | nil =>
    intro vals c c' _ h
    simp only [Context.pushArgsAux] at h
    injection h with h1 h2
    subst h1
    rfl
  | cons a as ih =>
    intro vals c c' hlen h
    cases vals with
    | nil => simp at hlen
    | cons v vs =>
      simp only [Context.pushArgsAux] at h
      cases hp : c.pushVar a v with
      | error e => rw [hp] at h; simp at h
      | ok c₁ =>
        rw [hp] at h
        have hsc : curLookup c₁ a.name = some v :=
          pushVar_curLookup_self c c₁ a v hp
        obtain ⟨hdisj, hfin⟩ :=
          pushArgsAux_preserve as vs c₁ c' (by simpa using hlen) h a.name v hsc
        obtain ⟨X', hX'⟩ := popVar_of_curLookup c' a v hfin
        have hrec := ih vs c₁ c' (by simpa using hlen) h
        obtain ⟨Z, hZ1, hZ2⟩ := popArgs_comm as c' X' c₁ a hdisj hX' hrec
        have hZc : Z = c := by
          have hcc := popVar_pushVar c c₁ a v hp
          rw [hZ2] at hcc
          exact Except.ok.inj hcc
        subst hZc
        simp only [Context.popArgsAux, hX']
        exact hZ1

theorem popFunction_pushFunction (c c' : Context) (fid : Nat)
    (fn fn₂ : FunctionObj)
    (hnm : fn₂.name.name = fn.name.name)
    (hargs : fn₂.args.length = fn.args.length)
    (h : c.pushFunction fid fn = .ok c') : c'.popFunction fn₂ = .ok c := by
  unfold Context.pushFunction at h
  cases hf : c.stack_frames with
  | nil => rw [hf] at h; exact absurd h (by simp)
  | cons sf rest =>
    rw [hf] at h
    by_cases hl : (alookup sf.funcs (fn.name.name, fn.args.length)).isSome
    · simp [hl] at h
    · simp [hl] at h
      subst h
      unfold Context.popFunction
      simp only [hnm, hargs, alookup_cons_self, aerase_cons_self,
        Option.isSome_some, if_pos]
      rw [← hf]

theorem pushArgs_none (c c' : Context) (args : List Var) (vals : List RVal)
    (h : c.pushArgs args vals = (c', none)) :
    args.length = vals.length ∧ Context.pushArgsAux c args vals = (c', none) := by
  unfold Context.pushArgs at h
  by_cases hlen : args.length = vals.length
  · rw [if_pos hlen] at h
    exact ⟨hlen, h⟩
  · rw [if_neg hlen] at h
    injection h with h1 h2
    exact absurd h2 (by simp)

/-- Context preservation predicate: if the outcome is a value, the final
context equals the given one. -/
def CtxPres (r : EvalState × Outcome) (c : Context) : Prop :=
  match r.2 with
  | .ok _ => r.1.ctx = c
  | _ => True

/-- List version of `CtxPres`. -/
def CtxPresL (r : EvalState × OutcomeL) (c : Context) : Prop :=
  match r.2 with
  | .ok _ => r.1.ctx = c
  | _ => True

/-- An evaluator whose every successful run restores the context. -/
def PresRel (ev : Expr → EvalState → EvalState × Outcome) : Prop :=
  ∀ e s, CtxPres (ev e s) s.ctx

/-- An evaluator that keeps the argv-erased store invariant. -/
def StoreErase (ev : Expr → EvalState → EvalState × Outcome) : Prop :=
  ∀ e s, eraseArgv (ev e s).1.store = eraseArgv s.store

theorem argsPres {ev : Expr → EvalState → EvalState × Outcome}
    (hP : PresRel ev) (es : List Expr) :
    ∀ s, CtxPresL (evalArgsWith ev es s) s.ctx := by
  induction es with
  | nil => intro s; exact rfl
  | cons e es ih =>
    intro s
    have h1 := hP e s
    rcases hev : ev e s with ⟨s₁, o₁⟩
    rw [hev] at h1
    cases o₁ with
    | ok v =>
      replace h1 : s₁.ctx = s.ctx := h1
      have h2 := ih s₁
      rcases hrest : evalArgsWith ev es s₁ with ⟨s₂, oL⟩
      rw [hrest] at h2
      simp only [evalArgsWith, hev, hrest]
      cases oL with
      | ok vs =>
        replace h2 : s₂.ctx = s₁.ctx := h2
        exact (h2.trans h1 : s₂.ctx = s.ctx)
      | err er => exact trivial
      | timeout => exact trivial
    | err er => simp only [evalArgsWith, hev]; exact trivial
    | timeout => simp only [evalArgsWith, hev]; exact trivial

theorem fnPresStep {ev : Expr → EvalState → EvalState × Outcome}
    (hP : PresRel ev) (fid : Nat) (s : EvalState) :
    CtxPres (fnEvalWith ev fid s) s.ctx := by
  cases hget : s.store[fid]? with
  | none => simp only [fnEvalWith, hget]; exact trivial
  | some fn =>
    cases hargv : fn.argv with
    | none => simp only [fnEvalWith, hget, hargv]; exact trivial
    | some argv =>
      simp only [fnEvalWith, hget, hargv]
      cases hl : fn.is_lambda with
      | true =>
        simp only []
        rcases hpush : s.ctx.pushArgs fn.args argv with ⟨c₂, oe⟩
        cases oe with
        | some e => exact trivial
        | none =>
          obtain ⟨hlen, haux⟩ := pushArgs_none _ _ _ _ hpush
          have hbody := hP fn.body { s with ctx := c₂ }
          rcases hev : ev fn.body { s with ctx := c₂ } with ⟨s₃, o₃⟩
          rw [hev] at hbody
          simp only [hev]
          cases o₃ with
          | ok r =>
            replace hbody : s₃.ctx = c₂ := hbody
            have hrest := popArgsAux_pushArgsAux fn.args argv s.ctx c₂ hlen haux
            have hcc : (clearArgv s₃ fid).ctx = c₂ := by
              rw [clearArgv_ctx, hbody]
            dsimp only
            rw [hcc]
            simp only [hrest]
            exact rfl
          | err e => exact trivial
          | timeout => exact trivial
      | false =>
        simp only []
        rcases hpush : (s.ctx.pushStackFrame).pushArgs fn.args argv with ⟨c₂, oe⟩
        cases oe with
        | some e => exact trivial
        | none =>
          obtain ⟨hlen, haux⟩ := pushArgs_none _ _ _ _ hpush
          have hbody := hP fn.body { ctx := c₂, store := s.store }
          rcases hev : ev fn.body { ctx := c₂, store := s.store } with ⟨s₃, o₃⟩
          rw [hev] at hbody
          simp only [hev]
          cases o₃ with
          | ok r =>
            replace hbody : s₃.ctx = c₂ := hbody
            have hrest :=
              popArgsAux_pushArgsAux fn.args argv s.ctx.pushStackFrame c₂ hlen haux
            have hcc : (clearArgv s₃ fid).ctx = c₂ := by
              rw [clearArgv_ctx, hbody]
            dsimp only
            rw [hcc]
            simp only [hrest]
            have hpop : (s.ctx.pushStackFrame).popStackFrame = .ok s.ctx := rfl
            simp only [hpop]
            exact rfl
          | err e => exact trivial
          | timeout => exact trivial

theorem setArgs_ctx {s s' : EvalState} {fid : Nat} {vs : List RVal}
    (h : setArgs s fid vs = .ok s') : s'.ctx = s.ctx := by
  unfold setArgs at h
  cases hg : s.store[fid]? with
  | none => rw [hg] at h; exact absurd h (by simp)
  | some fn =>
    rw [hg] at h
    replace h : (if vs.length = fn.args.length then
        Except.ok ({ s with store := s.store.set fid { fn with argv := some vs } })
      else (Except.error (Err.exn arityMsg) : Except Err EvalState)) =
        Except.ok s' := h
    by_cases hlen : vs.length = fn.args.length
    · rw [if_pos hlen] at h
      replace h := Except.ok.inj h
      rw [← h]
    · rw [if_neg hlen] at h
      exact absurd h (by simp)

theorem stepPres {ev : Expr → EvalState → EvalState × Outcome}
    (hP : PresRel ev) (hS : StoreErase ev) : PresRel (evalStep ev) := by
  intro e s
  cases e with
  | value v => exact rfl
  | var v =>
    cases hv : s.ctx.getVar v <;> simp only [evalStep, hv]
    · exact trivial
    · exact rfl
  | additive lhs op rhs sp =>
    have hP1 := hP lhs s
    rcases h1 : ev lhs s with ⟨s₁, o₁⟩
    rw [h1] at hP1
    cases o₁ with
    | ok lv =>
      replace hP1 : s₁.ctx = s.ctx := hP1
      have hP2 := hP rhs s₁
      rcases h2 : ev rhs s₁ with ⟨s₂, o₂⟩
      rw [h2] at hP2
      simp only [evalStep, h1, h2]
      cases o₂ with
      | ok rv =>
        replace hP2 : s₂.ctx = s₁.ctx := hP2
        cases lv <;> cases rv <;> first
          | exact (hP2.trans hP1 : s₂.ctx = s.ctx)
          | exact trivial
      | err e2 => exact trivial
      | timeout => exact trivial
    | err e1 => simp only [evalStep, h1]; exact trivial
    | timeout => simp only [evalStep, h1]; exact trivial
  | comparison lhs op rhs sp =>
    have hP1 := hP lhs s
    rcases h1 : ev lhs s with ⟨s₁, o₁⟩
    rw [h1] at hP1
    cases o₁ with
    | ok lv =>
      replace hP1 : s₁.ctx = s.ctx := hP1
      have hP2 := hP rhs s₁
      rcases h2 : ev rhs s₁ with ⟨s₂, o₂⟩
      rw [h2] at hP2
      simp only [evalStep, h1, h2]
      cases o₂ with
      | ok rv =>
        replace hP2 : s₂.ctx = s₁.ctx := hP2
        cases lv <;> cases rv <;> first
          | exact (hP2.trans hP1 : s₂.ctx = s.ctx)
          | exact trivial
      | err e2 => exact trivial
      | timeout => exact trivial
    | err e1 => simp only [evalStep, h1]; exact trivial
    | timeout => simp only [evalStep, h1]; exact trivial
  | condition inner sp =>
    have hP1 := hP inner s
    rcases h1 : ev inner s with ⟨s₁, o₁⟩
    rw [h1] at hP1
    simp only [evalStep, h1]
    cases o₁ with
    | ok v =>
      replace hP1 : s₁.ctx = s.ctx := hP1
      cases v with
      | num x => exact hP1
      | bool b => exact trivial
    | err e1 => exact trivial
    | timeout => exact trivial
  | ifE cond tE fE sp =>
    have hP1 := hP cond s
    rcases h1 : ev cond s with ⟨s₁, o₁⟩
    rw [h1] at hP1
    simp only [evalStep, h1]
    cases o₁ with
    | ok cv =>
      replace hP1 : s₁.ctx = s.ctx := hP1
      dsimp only
      cases hb : cv.truthy with
      | true =>
        have hPt := hP tE s₁
        rw [hP1] at hPt
        exact hPt
      | false =>
        have hPf := hP fE s₁
        rw [hP1] at hPf
        exact hPf
    | err e1 => exact trivial
    | timeout => exact trivial
  | letE nm vE bE sp =>
    have hP1 := hP vE s
    rcases h1 : ev vE s with ⟨s₁, o₁⟩
    rw [h1] at hP1
    cases o₁ with
    | ok val =>
      replace hP1 : s₁.ctx = s.ctx := hP1
      cases hpv : s₁.ctx.pushVar nm val with
      | error e => simp only [evalStep, h1, hpv]; exact trivial
      | ok cB =>
        have hP2 := hP bE { s₁ with ctx := cB }
        rcases h2 : ev bE { s₁ with ctx := cB } with ⟨s₂, o₂⟩
        rw [h2] at hP2
        simp only [evalStep, h1, hpv, h2]
        cases o₂ with
        | ok bv =>
          replace hP2 : s₂.ctx = cB := hP2
          have hpop : s₂.ctx.popVar nm = .ok s₁.ctx := by
            rw [hP2]
            exact popVar_pushVar s₁.ctx cB nm val hpv
          dsimp only
          simp only [hpop]
          exact hP1
        | err e2 => exact trivial
        | timeout => exact trivial
    | err e1 => simp only [evalStep, h1]; exact trivial
    | timeout => simp only [evalStep, h1]; exact trivial
  | lambdaE fid bE sp =>
    cases hget : s.store[fid]? with
    | none => simp only [evalStep, hget]; exact trivial
    | some fn =>
      cases hpf : s.ctx.pushFunction fid fn with
      | error e => simp only [evalStep, hget, hpf]; exact trivial
      | ok c₁ =>
        have hP2 := hP bE { s with ctx := c₁ }
        rcases h2 : ev bE { s with ctx := c₁ } with ⟨s₂, o₂⟩
        rw [h2] at hP2
        simp only [evalStep, hget, hpf, h2]
        cases o₂ with
        | ok r =>
          replace hP2 : s₂.ctx = c₁ := hP2
          have hrel : eraseArgv s.store = eraseArgv s₂.store := by
            have := hS bE { s with ctx := c₁ }
            rw [h2] at this
            exact (this : eraseArgv s₂.store = eraseArgv s.store).symm
          obtain ⟨fn₂, hget₂, hf₂⟩ := related_get?_some hrel hget
          obtain ⟨hnm₂, hargs₂, hbody₂, hspan₂, hlam₂⟩ := eraseArgv1_fields hf₂
          have hpop : s₂.ctx.popFunction fn₂ = .ok s.ctx := by
            rw [hP2]
            exact popFunction_pushFunction s.ctx c₁ fid fn fn₂ (by rw [hnm₂])
              (by rw [hargs₂]) hpf
          dsimp only
          simp only [hget₂, hpop]
          exact rfl
        | err e2 => exact trivial
        | timeout => exact trivial
  | fcall nm argvE sp =>
    cases hgf : s.ctx.getFunction nm argvE.length with
    | error e => simp only [evalStep, hgf]; exact trivial
    | ok fid =>
      have hPA := argsPres hP argvE s
      rcases hA : evalArgsWith ev argvE s with ⟨s₁, oL⟩
      rw [hA] at hPA
      simp only [evalStep, hgf, hA]
      cases oL with
      | ok vs =>
        replace hPA : s₁.ctx = s.ctx := hPA
        cases hset : setArgs s₁ fid vs with
        | error e => simp only [hset]; exact trivial
        | ok s₂ =>
          dsimp only
          simp only [hset]
          have hctx2 : s₂.ctx = s₁.ctx := setArgs_ctx hset
          have hFn := fnPresStep hP fid s₂
          rw [hctx2, hPA] at hFn
          exact hFn
      | err e1 => exact trivial
      | timeout => exact trivial

/-- Any successful evaluation leaves the context exactly as it found
it: every frame pushed, parameter bound, let-binding added or lambda
registered during a successful evaluation is removed again. -/
theorem evalE_pres : ∀ n, PresRel (evalE n) := by
  intro n
  induction n with
  | zero => intro e s; exact trivial
  | succ n ih => exact stepPres ih (fun e s => evalE_storeErase n e s)

/-- Convenient form: a successful evaluation returns the context it
started from. -/
theorem evalE_ok_ctx {n : Nat} {e : Expr} {s s' : EvalState} {v : RVal}
    (h : evalE n e s = (s', .ok v)) : s'.ctx = s.ctx := by
  have hp := evalE_pres n e s
  rw [h] at hp
  exact hp

theorem findVar_append_none (A rest : List Frame) (nm : String)
    (h : ∀ G ∈ A, alookup G.vars nm = none) :
    findVar (A ++ rest) nm = findVar rest nm := by
  induction A with
  | nil => rfl
  | cons G t ih =>
    simp only [List.cons_append, findVar, h G (by simp)]
    exact ih (fun G' hG' => h G' (by simp [hG']))

theorem findVar_eq_none_iff (fs : List Frame) (nm : String) :
    findVar fs nm = none ↔ ∀ G ∈ fs, alookup G.vars nm = none := by
  induction fs with
  | nil => simp [findVar]
  | cons G t ih =>
    simp only [findVar]
    cases hG : alookup G.vars nm with
    | some x => simp [hG]
    | none => simp [hG, ih]

theorem findFunction_none (fs : List Frame) (key : String × Nat)
    (h : ∀ G ∈ fs, alookup G.funcs key = none) :
    findFunction fs key = none := by
  induction fs with
  | nil => rfl
  | cons G t ih =>
    simp only [findFunction, h G (by simp)]
    exact ih (fun G' hG' => h G' (by simp [hG']))

theorem getFunction_none (c : Context) (v : Var) (argn : Nat)
    (hne : c.stack_frames ≠ [])
    (h : ∀ G ∈ c.stack_frames, alookup G.funcs (v.name, argn) = none) :
    c.getFunction v argn =
      .error (.interp (noSuchFnMsg v.name argn) v.span) := by
  unfold Context.getFunction
  cases hf : c.stack_frames with
  | nil => exact absurd hf hne
  | cons F rest =>
    rw [hf] at h
    have hnone : findFunction (F :: rest) (v.name, argn) = none :=
      findFunction_none _ _ h
    dsimp only
    rw [hnone]

theorem pushArgsAux_shadow (args : List Var) :
    ∀ (vals : List RVal) (F : Frame) (rest : List Frame),
      args.length = vals.length →
      (∃ a ∈ args, (alookup F.vars a.name).isSome) →
      ∃ c', Context.pushArgsAux ⟨F :: rest⟩ args vals =
        (c', some (.interp shadowMsg Span.EMPTY)) := by
  induction args with
  | nil =>
    intro vals F rest _ hcol
    obtain ⟨a, ha, _⟩ := hcol
    exact absurd ha (by simp)
  | cons a as ih =>
    intro vals F rest hlen hcol
    cases vals with
    | nil => simp at hlen
    | cons v vs =>
      by_cases ha : (alookup F.vars a.name).isSome
      · refine ⟨⟨F :: rest⟩, ?_⟩
        simp only [Context.pushArgsAux, Context.pushVar, ha, if_pos]
      · obtain ⟨b, hb, hbS⟩ := hcol
        have hbas : b ∈ as := by
          rcases List.mem_cons.mp hb with hb' | hb'
          · subst hb'; exact absurd hbS ha
          · exact hb'
        have hbS' :
            (alookup ((a.name, v) :: F.vars) b.name).isSome := by
          by_cases hab : a.name = b.name
          · simp [alookup, hab]
          · rwa [alookup_cons_ne a.name b.name v F.vars hab]
        obtain ⟨c', hc'⟩ :=
          ih vs { F with vars := (a.name, v) :: F.vars } rest
            (by simpa using hlen) ⟨b, hbas, hbS'⟩
        refine ⟨c', ?_⟩
        simp only [Context.pushArgsAux, Context.pushVar, ha, if_neg]
        exact hc'

/-- Empty starting state: a fresh context and no function objects. -/
def emptyState : EvalState := ⟨Context.init, []⟩

theorem decide_falsy (q : ℚ) :
    decide (q ∉ ConditionExpr.falseValues) = decide (¬ q = 0) := by
  by_cases h : q = 0 <;> simp [ConditionExpr.falseValues, h]

/-- Sanity check: the demonstration recursive call `f(3)` returns
`6.0` (= 3+2+1+0) and restores the state exactly, with the
pending-argument slot back to `None`. -/
theorem demoCall_evaluates :
    evalE 30 demoCall demoState = (demoState, .ok (.num ⟨6, Span.EMPTY⟩)) := by
  with_unfolding_all rfl

/-- C1: a non-lambda `Function` that recurses into itself (directly or
transitively) through the same `Function` object has every call level
return the result of evaluating the body under that level's own
argument bindings, and the outer call's pending arguments are not
corrupted by the inner call's arming/disarming of the shared slot.
Formally: the source evaluator `evalE` (whose call protocol arms the
shared mutable `argv` slot of the callee object) agrees — on every
expression, every state, and every fuel bound — with the call-local
evaluator `evalSpecE`, in which each call level carries its own
argument values and never touches the shared slot.  Outcomes and final
contexts coincide, and the source store differs only in the transient
argv slots. -/
theorem fn_recursion_no_argv_corruption (n : Nat) (e : Expr) (s : EvalState)
    (st₂ : List FunctionObj) (h : eraseArgv s.store = eraseArgv st₂) :
    (evalE n e s).2 = (evalSpecE n st₂ e s.ctx).2 ∧
    (evalE n e s).1.ctx = (evalSpecE n st₂ e s.ctx).1 ∧
    eraseArgv (evalE n e s).1.store = eraseArgv s.store :=
  evalE_spec_rel n e s st₂ h

/-- Witness for C1 at the concrete recursive call `f(3)`, with the
spec-side store even starting from a stale armed slot (argv = [99]) to
exhibit slot-independence. -/
theorem fn_recursion_no_argv_corruption_witness :
    eraseArgv demoState.store =
      eraseArgv [{ sumFn with argv := some [.num ⟨99, Span.EMPTY⟩] }] ∧
    ((evalE 30 demoCall demoState).2 =
      (evalSpecE 30 [{ sumFn with argv := some [.num ⟨99, Span.EMPTY⟩] }]
        demoCall demoState.ctx).2 ∧
     (evalE 30 demoCall demoState).1.ctx =
      (evalSpecE 30 [{ sumFn with argv := some [.num ⟨99, Span.EMPTY⟩] }]
        demoCall demoState.ctx).1 ∧
     eraseArgv (evalE 30 demoCall demoState).1.store =
      eraseArgv demoState.store) :=
  ⟨rfl, fn_recursion_no_argv_corruption 30 demoCall demoState
    [{ sumFn with argv := some [.num ⟨99, Span.EMPTY⟩] }] rfl⟩

/-- C4: any function call (lambda or non-lambda) that completes without
error leaves the Context with the same number of frames and an
identical current frame variable store as before the call (in fact the
whole context is restored). -/
theorem fcall_no_frame_leakage (n : Nat) (nm : Var) (argvE : List Expr)
    (sp : Span) (s s' : EvalState) (r : RVal)
    (h : evalE n (.fcall nm argvE sp) s = (s', .ok r)) :
    s'.ctx.stack_frames.length = s.ctx.stack_frames.length ∧
    (s'.ctx.stack_frames.head?).map Frame.vars =
      (s.ctx.stack_frames.head?).map Frame.vars := by
  have hc := evalE_ok_ctx h
  rw [hc]
  exact ⟨rfl, rfl⟩

/-- Witness for C4 at the concrete call `f(3)`. -/
theorem fcall_no_frame_leakage_witness :
    evalE 30 (.fcall vF [.value ⟨3, Span.EMPTY⟩] Span.EMPTY) demoState =
      (demoState, .ok (.num ⟨6, Span.EMPTY⟩)) ∧
    (demoState.ctx.stack_frames.length = demoState.ctx.stack_frames.length ∧
     (demoState.ctx.stack_frames.head?).map Frame.vars =
       (demoState.ctx.stack_frames.head?).map Frame.vars) :=
  ⟨by with_unfolding_all rfl,
   fcall_no_frame_leakage 30 vF [.value ⟨3, Span.EMPTY⟩] Span.EMPTY
    demoState demoState (.num ⟨6, Span.EMPTY⟩) (by with_unfolding_all rfl)⟩

/-- C9 (failing input): `AdditiveExpr.eval` never reads `self.operator`
and always computes `lhs + rhs`; evaluating
`AdditiveExpr(Value(5.0), SUBTRACTION, Value(3.0))` yields `8.0` (the
sum) tagged with the node's own span, where the claim's
operator-application reading demands `2.0`. -/
theorem additive_subtraction_adds :
    evalE 2 (.additive (.value ⟨5, Span.EMPTY⟩) .subtraction
      (.value ⟨3, Span.EMPTY⟩) ⟨1, 2, "x"⟩) emptyState =
      (emptyState, .ok (.num ⟨8, ⟨1, 2, "x"⟩⟩)) := by
  with_unfolding_all rfl

/-- C3 (failing input): `Program.run` dispatches on exact class
equality, so an Expression declaration — here the value literal `5.0` —
is not evaluated but rejected with `TypeError("Expected Function or
Expr")`. -/
theorem program_run_rejects_expressions :
    Program.run ⟨[.expr (.value ⟨5, Span.EMPTY⟩)], []⟩ =
      (⟨Context.init, []⟩, some (.typeError malformedMsg)) := rfl

/-- C8: `ConditionExpr` evaluates to the raw boolean `true` exactly when
the inner expression's Value has an underlying number different from
`0.0` (the only falsy member a number can equal in
`FALSE_VALUES = [0.0, "", []]`). -/
theorem conditionExpr_truthiness (n : Nat) (inner : Expr) (sp : Span)
    (s s₁ : EvalState) (v : Value)
    (h : evalE n inner s = (s₁, .ok (.num v))) :
    evalE (n + 1) (.condition inner sp) s =
      (s₁, .ok (.bool (decide (¬ v.value = 0)))) := by
  show evalStep (evalE n) (.condition inner sp) s = _
  simp only [evalStep, h]
  rw [decide_falsy]

/-- Witness for C8: `ConditionExpr(0.0)` is `false` and
`ConditionExpr(1.4)` is `true`. -/
theorem conditionExpr_truthiness_witness :
    evalE 2 (.condition (.value ⟨0, Span.EMPTY⟩) Span.EMPTY) emptyState =
      (emptyState, .ok (.bool false)) ∧
    evalE 2 (.condition (.value ⟨1.4, Span.EMPTY⟩) Span.EMPTY) emptyState =
      (emptyState, .ok (.bool true)) := by
  constructor
  · have h := conditionExpr_truthiness 1 (.value ⟨0, Span.EMPTY⟩) Span.EMPTY
      emptyState emptyState ⟨0, Span.EMPTY⟩ rfl
    exact h.trans (by with_unfolding_all rfl)
  · have h := conditionExpr_truthiness 1 (.value ⟨1.4, Span.EMPTY⟩) Span.EMPTY
      emptyState emptyState ⟨1.4, Span.EMPTY⟩ rfl
    exact h.trans (by with_unfolding_all rfl)

/-- C2 (counterexample): `LetExpr.eval` has no `finally`; when the body
raises (here: an unbound variable), the error propagates and the
binding `a = 5.0` is left in the current frame — the unbind does NOT
occur on the error exit path. -/
theorem letExpr_error_keeps_binding :
    (evalE 3 (.letE ⟨"a", Span.EMPTY⟩ (.value ⟨5, Span.EMPTY⟩)
        (.var ⟨"zzz", Span.EMPTY⟩) Span.EMPTY) emptyState).2 =
      .err (.interp (noVarMsg "zzz") Span.EMPTY) ∧
    curLookup (evalE 3 (.letE ⟨"a", Span.EMPTY⟩ (.value ⟨5, Span.EMPTY⟩)
        (.var ⟨"zzz", Span.EMPTY⟩) Span.EMPTY) emptyState).1.ctx "a" =
      some (.num ⟨5, Span.EMPTY⟩) :=
  ⟨rfl, rfl⟩

/-- C2 (amended): after evaluating `value_expr` and binding `name`,
when evaluation of `body_expr` completes normally the binding is
unbound from the current frame — the final context is exactly the
pre-let context — and the body's result is returned.  (On an error
exit the binding is not removed; see the counterexample.) -/
theorem letExpr_success_unbinds (n : Nat) (nm : Var) (vE bE : Expr) (sp : Span)
    (s s₁ : EvalState) (val : RVal) (c₁ : Context) (s₂ : EvalState) (r : RVal)
    (h1 : evalE n vE s = (s₁, .ok val))
    (h2 : s₁.ctx.pushVar nm val = .ok c₁)
    (h3 : evalE n bE { ctx := c₁, store := s₁.store } = (s₂, .ok r)) :
    evalE (n + 1) (.letE nm vE bE sp) s =
      ({ ctx := s.ctx, store := s₂.store }, .ok r) := by
  show evalStep (evalE n) (.letE nm vE bE sp) s = _
  simp only [evalStep, h1, h2]
  simp only [h3]
  have hb : s₂.ctx = c₁ := evalE_ok_ctx h3
  have hpop : s₂.ctx.popVar nm = .ok s₁.ctx := by
    rw [hb]
    exact popVar_pushVar s₁.ctx c₁ nm val h2
  simp only [hpop]
  have hs1 : s₁.ctx = s.ctx := evalE_ok_ctx h1
  rw [hs1]

/-- Witness for C2's amended theorem at `let a = 5 in a`. -/
theorem letExpr_success_unbinds_witness :
    evalE 1 (.value ⟨5, Span.EMPTY⟩) emptyState =
      (emptyState, .ok (.num ⟨5, Span.EMPTY⟩)) ∧
    emptyState.ctx.pushVar ⟨"a", Span.EMPTY⟩ (.num ⟨5, Span.EMPTY⟩) =
      .ok ⟨[⟨[("a", .num ⟨5, Span.EMPTY⟩)], []⟩]⟩ ∧
    evalE 2 (.letE ⟨"a", Span.EMPTY⟩ (.value ⟨5, Span.EMPTY⟩)
        (.var ⟨"a", Span.EMPTY⟩) Span.EMPTY) emptyState =
      ({ ctx := emptyState.ctx, store := [] }, .ok (.num ⟨5, Span.EMPTY⟩)) :=
  ⟨rfl, rfl,
   letExpr_success_unbinds 1 ⟨"a", Span.EMPTY⟩ (.value ⟨5, Span.EMPTY⟩)
     (.var ⟨"a", Span.EMPTY⟩) Span.EMPTY emptyState emptyState
     (.num ⟨5, Span.EMPTY⟩) ⟨[⟨[("a", .num ⟨5, Span.EMPTY⟩)], []⟩]⟩
     ⟨⟨[⟨[("a", .num ⟨5, Span.EMPTY⟩)], []⟩]⟩, []⟩ (.num ⟨5, Span.EMPTY⟩)
     rfl rfl rfl⟩

theorem getVar_of_findVar (fs : List Frame) (v : Var) (w : RVal)
    (hne : fs ≠ []) (h : findVar fs v.name = some w) :
    Context.getVar ⟨fs⟩ v = .ok w := by
  unfold Context.getVar
  cases fs with
  | nil => exact absurd rfl hne
  | cons G t =>
    dsimp only
    rw [h]

theorem getVar_of_findVar_none (fs : List Frame) (v : Var)
    (hne : fs ≠ []) (h : findVar fs v.name = none) :
    Context.getVar ⟨fs⟩ v = .error (.interp (noVarMsg v.name) v.span) := by
  unfold Context.getVar
  cases fs with
  | nil => exact absurd rfl hne
  | cons G t =>
    dsimp only
    rw [h]

/-- C5: variable lookup walks the frame stack from the current
(topmost) frame downward through all frames (dynamic scoping): for a
name bound only in a deeper frame `F` — no frame above it and no frame
below it binds the name — lookup from the top succeeds with `F`'s
binding; and, for any non-empty frame stack, lookup fails with the
`UnboundVariable` error exactly when no frame contains the name.
(Frames are listed top-first; `above` are the frames between the
current frame and `F`.) -/
theorem getVar_dynamic_scope (above below : List Frame) (F : Frame)
    (v : Var) (w : RVal)
    (h1 : ∀ G ∈ above, alookup G.vars v.name = none)
    (h2 : alookup F.vars v.name = some w)
    (h3 : ∀ G ∈ below, alookup G.vars v.name = none) :
    Context.getVar ⟨above ++ F :: below⟩ v = .ok w ∧
    ∀ fs : List Frame, fs ≠ [] →
      (Context.getVar ⟨fs⟩ v = .error (.interp (noVarMsg v.name) v.span) ↔
        ∀ G ∈ fs, alookup G.vars v.name = none) := by
  constructor
  · have hfv : findVar (above ++ F :: below) v.name = some w := by
      rw [findVar_append_none above _ _ h1]
      simp [findVar, h2]
    exact getVar_of_findVar _ v w (by simp) hfv
  · intro fs hne
    constructor
    · intro herr
      cases hfv : findVar fs v.name with
      | some x =>
        have := getVar_of_findVar fs v x hne hfv
        rw [this] at herr
        exact absurd herr (by simp)
      | none => exact (findVar_eq_none_iff fs v.name).mp hfv
    · intro hall
      exact getVar_of_findVar_none fs v hne
        ((findVar_eq_none_iff fs v.name).mpr hall)

/-- Witness for C5: three frames (top-first: an empty current frame, a
middle frame binding `x = 5.0`, an empty base frame); lookup of `x`
from the top returns the middle frame's binding, and lookup of an
absent name errors. -/
theorem getVar_dynamic_scope_witness :
    Context.getVar ⟨[⟨[], []⟩, ⟨[("x", .num ⟨5, Span.EMPTY⟩)], []⟩, ⟨[], []⟩]⟩
        ⟨"x", Span.EMPTY⟩ = .ok (.num ⟨5, Span.EMPTY⟩) ∧
    Context.getVar ⟨[⟨[], []⟩, ⟨[("x", .num ⟨5, Span.EMPTY⟩)], []⟩, ⟨[], []⟩]⟩
        ⟨"y", Span.EMPTY⟩ =
      .error (.interp (noVarMsg "y") Span.EMPTY) := by
  constructor
  · exact (getVar_dynamic_scope [⟨[], []⟩] [⟨[], []⟩]
      ⟨[("x", .num ⟨5, Span.EMPTY⟩)], []⟩ ⟨"x", Span.EMPTY⟩
      (.num ⟨5, Span.EMPTY⟩)
      (by intro G hG; rw [List.mem_singleton] at hG; subst hG; rfl)
      rfl
      (by intro G hG; rw [List.mem_singleton] at hG; subst hG; rfl)).1
  · exact rfl

/-- C6: binding a name twice in the same frame without an intervening
unbind fails with the `Shadowing` error, and registering the same
`(name, arity)` function pair twice in a frame likewise fails with the
`Shadowing` error.  In both operations the membership test precedes the
assignment, so the failed second binding performs no mutation: the
error is raised and no context is produced. -/
theorem double_bind_shadowing (c c₁ c₂ : Context) (v v' : Var) (w w' : RVal)
    (fid fid' : Nat) (fn fn' : FunctionObj)
    (hname : v'.name = v.name)
    (hv : c.pushVar v w = .ok c₁)
    (hfnm : fn'.name.name = fn.name.name)
    (hfar : fn'.args.length = fn.args.length)
    (hf : c.pushFunction fid fn = .ok c₂) :
    c₁.pushVar v' w' = .error (.interp shadowMsg Span.EMPTY) ∧
    c₂.pushFunction fid' fn' =
      .error (.interp (pushFnMsg fn'.name.name fn'.args.length) fn'.span) := by
  constructor
  · have hcur : curLookup c₁ v.name = some w := pushVar_curLookup_self c c₁ v w hv
    unfold curLookup at hcur
    unfold Context.pushVar
    cases hf1 : c₁.stack_frames with
    | nil => rw [hf1] at hcur; simp at hcur
    | cons sf rest =>
      rw [hf1] at hcur
      replace hcur : alookup sf.vars v.name = some w := hcur
      dsimp only
      simp [hname, hcur]
  · unfold Context.pushFunction at hf ⊢
    cases hfc : c.stack_frames with
    | nil => rw [hfc] at hf; exact absurd hf (by simp)
    | cons sf rest =>
      rw [hfc] at hf
      by_cases hl : (alookup sf.funcs (fn.name.name, fn.args.length)).isSome
      · simp [hl] at hf
      · simp [hl] at hf
        subst hf
        dsimp only
        simp [hfnm, hfar, alookup_cons_self]

/-- Witness for C6: in a fresh context, bind `x` then bind `x` again
(Shadowing), and register `(g, 1)` then register `(g, 1)` again
(Shadowing). -/
theorem double_bind_shadowing_witness :
    Context.init.pushVar ⟨"x", Span.EMPTY⟩ (.num ⟨1, Span.EMPTY⟩) =
      .ok ⟨[⟨[("x", .num ⟨1, Span.EMPTY⟩)], []⟩]⟩ ∧
    (⟨[⟨[("x", .num ⟨1, Span.EMPTY⟩)], []⟩]⟩ : Context).pushVar
        ⟨"x", Span.EMPTY⟩ (.num ⟨2, Span.EMPTY⟩) =
      .error (.interp shadowMsg Span.EMPTY) ∧
    (⟨[⟨[], [(("g", 1), 0)]⟩]⟩ : Context).pushFunction 1
        ⟨⟨"g", Span.EMPTY⟩, [⟨"a", Span.EMPTY⟩], .value ⟨1, Span.EMPTY⟩,
          Span.EMPTY, false, none⟩ =
      .error (.interp (pushFnMsg "g" 1) Span.EMPTY) := by
  refine ⟨rfl, ?_, ?_⟩
  · exact (double_bind_shadowing Context.init
      ⟨[⟨[("x", .num ⟨1, Span.EMPTY⟩)], []⟩]⟩
      ⟨[⟨[], [(("g", 1), 0)]⟩]⟩
      ⟨"x", Span.EMPTY⟩ ⟨"x", Span.EMPTY⟩
      (.num ⟨1, Span.EMPTY⟩) (.num ⟨2, Span.EMPTY⟩) 0 1
      ⟨⟨"g", Span.EMPTY⟩, [⟨"a", Span.EMPTY⟩], .value ⟨1, Span.EMPTY⟩,
        Span.EMPTY, false, none⟩
      ⟨⟨"g", Span.EMPTY⟩, [⟨"a", Span.EMPTY⟩], .value ⟨1, Span.EMPTY⟩,
        Span.EMPTY, false, none⟩
      rfl rfl rfl rfl rfl).1
  · exact (double_bind_shadowing ⟨[⟨[], []⟩]⟩
      ⟨[⟨[("x", .num ⟨1, Span.EMPTY⟩)], []⟩]⟩
      ⟨[⟨[], [(("g", 1), 0)]⟩]⟩
      ⟨"x", Span.EMPTY⟩ ⟨"x", Span.EMPTY⟩
      (.num ⟨1, Span.EMPTY⟩) (.num ⟨2, Span.EMPTY⟩) 0 1
      ⟨⟨"g", Span.EMPTY⟩, [⟨"a", Span.EMPTY⟩], .value ⟨1, Span.EMPTY⟩,
        Span.EMPTY, false, none⟩
      ⟨⟨"g", Span.EMPTY⟩, [⟨"a", Span.EMPTY⟩], .value ⟨1, Span.EMPTY⟩,
        Span.EMPTY, false, none⟩
      rfl rfl rfl rfl rfl).2

/-- C7: calling a function whose `(name, arity)` key — with arity the
number of argument expressions — matches no pair in any active frame
fails, before any argument is evaluated, with the `UndefinedFunction`
error whose message names the function and the requested arity. -/
theorem undefined_function_call (n : Nat) (v : Var) (argvE : List Expr)
    (sp : Span) (s : EvalState)
    (hne : s.ctx.stack_frames ≠ [])
    (h : ∀ G ∈ s.ctx.stack_frames,
      alookup G.funcs (v.name, argvE.length) = none) :
    evalE (n + 1) (.fcall v argvE sp) s =
      (s, .err (.interp ("no such function " ++ apos ++ v.name ++ apos ++
        " with " ++ toString argvE.length ++ " arguments") v.span)) := by
  have hg := getFunction_none s.ctx v argvE.length hne h
  show evalStep (evalE n) (.fcall v argvE sp) s = _
  simp only [evalStep, hg]
  rfl

/-- Witness for C7: calling undefined `h` with two arguments in a fresh
context. -/
theorem undefined_function_call_witness :
    evalE 1 (.fcall ⟨"h", Span.EMPTY⟩
        [.value ⟨1, Span.EMPTY⟩, .value ⟨2, Span.EMPTY⟩] Span.EMPTY)
      emptyState =
      (emptyState, .err (.interp ("no such function " ++ apos ++ "h" ++
        apos ++ " with " ++ toString 2 ++ " arguments") Span.EMPTY)) :=
  undefined_function_call 0 ⟨"h", Span.EMPTY⟩
    [.value ⟨1, Span.EMPTY⟩, .value ⟨2, Span.EMPTY⟩] Span.EMPTY emptyState
    (by simp [emptyState, Context.init])
    (by
      intro G hG
      simp only [emptyState, Context.init, List.mem_singleton] at hG
      subst hG
      rfl)

/-- C10: calling a lambda when some parameter name is already bound as
a variable in the caller's current frame fails with the `Shadowing`
error: the lambda binds its parameters directly into the caller's
current frame (no frame push), so the parameter binding collides with
the existing binding and is rejected by `push_var`. -/
theorem lambda_param_collision (n : Nat) (v : Var) (argvE : List Expr)
    (sp : Span) (s : EvalState) (fid : Nat) (s₁ : EvalState)
    (vs : List RVal) (fn : FunctionObj) (F : Frame) (rest : List Frame)
    (hgf : s.ctx.getFunction v argvE.length = .ok fid)
    (hargs : evalArgsWith (evalE (n + 1)) argvE s = (s₁, .ok vs))
    (hget : s₁.store[fid]? = some fn)
    (hlam : fn.is_lambda = true)
    (hlen : vs.length = fn.args.length)
    (hframes : s₁.ctx.stack_frames = F :: rest)
    (hcol : ∃ a ∈ fn.args, (alookup F.vars a.name).isSome) :
    (evalE (n + 2) (.fcall v argvE sp) s).2 =
      .err (.interp shadowMsg Span.EMPTY) := by
  show (evalStep (evalE (n + 1)) (.fcall v argvE sp) s).2 = _
  simp only [evalStep, hgf, hargs]
  have hset : setArgs s₁ fid vs =
      .ok { s₁ with store := s₁.store.set fid { fn with argv := some vs } } := by
    unfold setArgs
    rw [hget]
    dsimp only
    rw [if_pos hlen]
  simp only [hset]
  have hget2 :
      ({ s₁ with store := s₁.store.set fid { fn with argv := some vs } }
        : EvalState).store[fid]? = some { fn with argv := some vs } :=
    getElem?_set_of_some _ _ _ _ hget
  simp only [fnEvalWith, hget2]
  simp only [hlam]
  have hctx : s₁.ctx = ⟨F :: rest⟩ := by rw [← hframes]
  obtain ⟨c', hc'⟩ :=
    pushArgsAux_shadow fn.args vs F rest hlen.symm hcol
  have hpa : s₁.ctx.pushArgs fn.args vs =
      (c', some (.interp shadowMsg Span.EMPTY)) := by
    unfold Context.pushArgs
    rw [if_pos hlen.symm, hctx]
    exact hc'
  simp only [hpa]

/-- Demonstration lambda `g(x) = x` registered in a frame that already
binds the variable `x`. -/
def lamFn : FunctionObj :=
  ⟨⟨"g", Span.EMPTY⟩, [⟨"x", Span.EMPTY⟩], .var ⟨"x", Span.EMPTY⟩,
    Span.EMPTY, true, none⟩

/-- Frame binding `x = 7.0` and registering the lambda `(g, 1)`. -/
def lamFrame : Frame := ⟨[("x", .num ⟨7, Span.EMPTY⟩)], [(("g", 1), 0)]⟩

/-- State for the lambda-collision witness. -/
def lamState : EvalState := ⟨⟨[lamFrame]⟩, [lamFn]⟩

/-- Witness for C10: calling the lambda `g` with one argument while `x`
is bound in the caller's current frame yields the Shadowing error. -/
theorem lambda_param_collision_witness :
    (alookup lamFrame.vars "x").isSome = true ∧
    (evalE 2 (.fcall ⟨"g", Span.EMPTY⟩ [.value ⟨1, Span.EMPTY⟩] Span.EMPTY)
        lamState).2 =
      .err (.interp shadowMsg Span.EMPTY) :=
  ⟨rfl,
   lambda_param_collision 0 ⟨"g", Span.EMPTY⟩ [.value ⟨1, Span.EMPTY⟩]
     Span.EMPTY lamState 0 lamState [.num ⟨1, Span.EMPTY⟩] lamFn lamFrame []
     rfl rfl rfl rfl rfl rfl
     ⟨⟨"x", Span.EMPTY⟩, by simp [lamFn], rfl⟩⟩
